import Mathlib

/-!
Verification development for the OneBot channel bridge.

Strings are modelled as `List Char` (`Str`); JavaScript string operations
(`trim`, `toLowerCase`, `startsWith`, `slice`, `split`) are modelled as the
corresponding list operations, with `toLowerCase` taken character-wise
(ASCII).  Truthiness of a JavaScript string is modelled as the list being
non-empty; `string | null | undefined` fields are modelled as `Option Str`
with `some []` playing the role of the empty string.
-/

abbrev Str := List Char

/-- Whitespace characters recognised by the model of JavaScript `trim`. -/
def isWsChar (c : Char) : Bool :=
  c = ' ' || c = '\t' || c = '\n' || c = '\r' || c = '\x0b' || c = '\x0c'

/-- Model of JavaScript `String.prototype.trim`. -/
def jsTrim (s : Str) : Str :=
  ((s.dropWhile isWsChar).reverse.dropWhile isWsChar).reverse

/-- Model of JavaScript `String.prototype.toLowerCase` (character-wise, ASCII). -/
def toLowerStr (s : Str) : Str := s.map Char.toLower

/-- Splits a list at every character satisfying `p`, keeping empty pieces,
modelling JavaScript `String.prototype.split` with a character-class regex. -/
def splitOnPred (p : Char → Bool) : Str → List Str
  | [] => [[]]
  | c :: rest =>
    if p c then [] :: splitOnPred p rest
    else (c :: (splitOnPred p rest).headI) :: (splitOnPred p rest).tail

/-! ## Target addressing (targets.ts) -/

inductive OneBotTarget where
  | user (userId : Str)
  | group (groupId : Str)
  | channel (guildId : Str) (channelId : Str)
  deriving DecidableEq, Repr

def onebotPre : Str := ['o', 'n', 'e', 'b', 'o', 't', ':']
def userPre : Str := ['u', 's', 'e', 'r', ':']
def privatePre : Str := ['p', 'r', 'i', 'v', 'a', 't', 'e', ':']
def dmPre : Str := ['d', 'm', ':']
def qqPre : Str := ['q', 'q', ':']
def groupPre : Str := ['g', 'r', 'o', 'u', 'p', ':']
def channelPre : Str := ['c', 'h', 'a', 'n', 'n', 'e', 'l', ':']
def guildPre : Str := ['g', 'u', 'i', 'l', 'd', ':']

/-- `normalizeRawTarget`: trim, then strip one leading `onebot:` scheme,
case-insensitively (the anchored regex `/^onebot:/i` replaced by `""`). -/
def normalizeRawTarget (input : Str) : Str :=
  let t := jsTrim input
  if onebotPre.isPrefixOf (toLowerStr t) then t.drop onebotPre.length else t

/-- `stripPrefix`: `null` unless the lowercased input starts with `pre`;
otherwise the remainder of the original input, trimmed. -/
def stripPrefixOf (input : Str) (pre : Str) : Option Str :=
  if pre.isPrefixOf (toLowerStr input) then some (jsTrim (input.drop pre.length)) else none

/-- The user-prefix loop of `parseOneBotTarget`: the first prefix whose stripped
remainder is truthy (non-null and non-empty) wins; falsy remainders continue. -/
def firstUserRest (raw : Str) : List Str → Option Str
  | [] => none
  | p :: ps =>
    match stripPrefixOf raw p with
    | some r => if r ≠ [] then some r else firstUserRest raw ps
    | none => firstUserRest raw ps

def isChanDelim (c : Char) : Bool := c = '/' || c = ':'

/-- The channel-prefix loop of `parseOneBotTarget`: on a truthy remainder the
remainder is split on `/` or `:`, pieces trimmed, empty pieces dropped; fewer
than two pieces returns `null` from the whole parse (no further prefixes are
tried); a falsy remainder continues the loop. -/
def channelLoop (raw : Str) : List Str → Option OneBotTarget
  | [] => none
  | p :: ps =>
    match stripPrefixOf raw p with
    | some r =>
      if r ≠ [] then
        match ((splitOnPred isChanDelim r).map jsTrim).filter (fun x => x ≠ []) with
        | p0 :: p1 :: _ => some (.channel p0 p1)
        | _ => none
      else channelLoop raw ps
    | none => channelLoop raw ps

/-- The body of `parseOneBotTarget` after the `raw` local has been computed. -/
def parseRaw (raw : Str) : Option OneBotTarget :=
  if raw = [] then none
  else
    match firstUserRest raw [userPre, privatePre, dmPre, qqPre] with
    | some uid => some (.user uid)
    | none =>
      match stripPrefixOf raw groupPre with
      | some g => if g ≠ [] then some (.group g) else channelLoop raw [channelPre, guildPre]
      | none => channelLoop raw [channelPre, guildPre]

/-- `parseOneBotTarget` from targets.ts. -/
def parseOneBotTarget (input : Str) : Option OneBotTarget :=
  parseRaw (normalizeRawTarget input)

/-- `normalizeOneBotMessagingTarget`: parse; on failure return the trimmed
input unchanged; otherwise re-render the canonical form. -/
def normalizeOneBotMessagingTarget (target : Str) : Str :=
  match parseOneBotTarget target with
  | none => jsTrim target
  | some (.user u) => userPre ++ u
  | some (.group g) => groupPre ++ g
  | some (.channel g c) => channelPre ++ g ++ [':'] ++ c

/-- `looksLikeOneBotTargetId`. -/
def looksLikeOneBotTargetId (input : Str) : Bool :=
  (parseOneBotTarget input).isSome

def privateLit : Str := ['p', 'r', 'i', 'v', 'a', 't', 'e']
def userLit : Str := ['u', 's', 'e', 'r']
def dmLit : Str := ['d', 'm']
def groupLit : Str := ['g', 'r', 'o', 'u', 'p']
def channelLit : Str := ['c', 'h', 'a', 'n', 'n', 'e', 'l']

/-- `if (!field) return null; return render(field)` for one required field;
optional fields are `Option Str`, with `some []` modelling the (falsy) empty
string. -/
def reqField (o : Option Str) (f : Str → Str) : Option Str :=
  match o with
  | some v => if v ≠ [] then some (f v) else none
  | none => none

/-- Two required fields (guild and channel ids). -/
def reqPair (o1 o2 : Option Str) (f : Str → Str → Str) : Option Str :=
  match o1, o2 with
  | some a, some b => if a ≠ [] ∧ b ≠ [] then some (f a b) else none
  | _, _ => none

def buildTargetUponDetail (detail : Str) (userId groupId guildId channelId : Option Str) :
    Option Str :=
  if detail = privateLit ∨ detail = userLit ∨ detail = dmLit then
    reqField userId (fun u => userPre ++ u)
  else if detail = groupLit then
    reqField groupId (fun g => groupPre ++ g)
  else if detail = channelLit then
    reqPair guildId channelId (fun g c => channelPre ++ g ++ [':'] ++ c)
  else none

/-- `buildOneBotTargetFromEvent`: normalise the detail type, then dispatch. -/
def buildOneBotTargetFromEvent (detailType : Str) (userId groupId guildId channelId : Option Str) :
    Option Str :=
  buildTargetUponDetail (toLowerStr (jsTrim detailType)) userId groupId guildId channelId

/-! ## normalize.ts -/

/-- Strip `pre` from the front of `s`, case-insensitively, if present. -/
def stripCi (s : Str) (pre : Str) : Str :=
  if pre.isPrefixOf (toLowerStr s) then s.drop pre.length else s

/-- Strip the first of `ps` that matches (the regex alternation
`(user:|private:|dm:|qq:)?` of normalize.ts). -/
def stripFirstCi (s : Str) : List Str → Str
  | [] => s
  | p :: ps => if p.isPrefixOf (toLowerStr s) then s.drop p.length else stripFirstCi s ps

/-- `normalizeOneBotUserId`: trim, then strip the anchored regex
`/^(onebot:)?(user:|private:|dm:|qq:)?/i`. -/
def normalizeOneBotUserId (input : Str) : Str :=
  stripFirstCi (stripCi (jsTrim input) onebotPre) [userPre, privatePre, dmPre, qqPre]

/-! ## monitor.ts: allowlists, group config and the admission gate.

The admission gate `handleAdmission` embeds the guard portion of
`handleOneBotMessage` (monitor.ts), from the detail-type check down to the
DM/group policy decision, as a chain of stage functions.  Host-service calls
that do not affect the admission decision (status sink, pairing side
effects, logging) are omitted; the text resolution `resolveMessageText` is
abstracted as the event field `rawText` (the handler only tests its
non-emptiness before the policy checks). -/

structure NormalizedAllowlist where
  entries : List Str
  hasWildcard : Bool
  deriving DecidableEq, Repr

/-- `Set.add`: insert while keeping entries unique. -/
def insertUniq (l : List Str) (x : Str) : List Str :=
  if x ∈ l then l else l ++ [x]

def wildcardKey : Str := ['*']

def normalizeAllowlistStep (acc : NormalizedAllowlist) (e : Str) : NormalizedAllowlist :=
  if jsTrim e = [] then acc
  else if jsTrim e = wildcardKey then { acc with hasWildcard := true }
  else { acc with entries := insertUniq acc.entries (toLowerStr (normalizeOneBotUserId (jsTrim e))) }

/-- `normalizeAllowlist` from monitor.ts (entries are already strings;
numeric entries are modelled as their decimal rendering). -/
def normalizeAllowlist (entries : List Str) : NormalizedAllowlist :=
  entries.foldl normalizeAllowlistStep ⟨[], false⟩

/-- `mergeAllowlists` from monitor.ts (the varargs list with `undefined`
entries already removed). -/
def mergeAllowlists (lists : List NormalizedAllowlist) : NormalizedAllowlist :=
  lists.foldl
    (fun acc l =>
      { entries := l.entries.foldl insertUniq acc.entries,
        hasWildcard := acc.hasWildcard || l.hasWildcard })
    ⟨[], false⟩

/-- `isAllowed` from monitor.ts. -/
def isAllowed (list : NormalizedAllowlist) (senderId : Option Str) : Bool :=
  if list.hasWildcard then true
  else
    match senderId with
    | none => false
    | some s =>
      if toLowerStr (jsTrim s) = [] then false
      else decide (toLowerStr (jsTrim s) ∈ list.entries)

structure OneBotGroupConfig where
  enabled : Option Bool
  requireMention : Option Bool
  deriving DecidableEq, Repr

structure GroupConfigState where
  allowlistEnabled : Bool
  allowed : Bool
  groupConfig : Option OneBotGroupConfig
  deriving DecidableEq, Repr

/-- `Object.hasOwn(groups, k)`; the record is an association list with
distinct keys. -/
def hasKey (gs : List (Str × OneBotGroupConfig)) (k : Str) : Bool :=
  gs.any (fun p => decide (p.1 = k))

def lookupKey : List (Str × OneBotGroupConfig) → Str → Option OneBotGroupConfig
  | [], _ => none
  | (k0, v) :: rest, k => if k0 = k then some v else lookupKey rest k

/-- `resolveGroupConfig` from monitor.ts; a `null` group key is modelled as
`none` and coalesced to the empty string as in `params.groupKey ?? ""`. -/
def resolveGroupConfig (groups : Option (List (Str × OneBotGroupConfig)))
    (groupKey : Option Str) : GroupConfigState :=
  { allowlistEnabled := !(groups.getD []).isEmpty
    allowed := (groups.getD []).isEmpty
      || (!(groupKey.getD []).isEmpty && hasKey (groups.getD []) (groupKey.getD []))
      || hasKey (groups.getD []) wildcardKey
    groupConfig :=
      (if (groupKey.getD []) ≠ [] then lookupKey (groups.getD []) (groupKey.getD []) else none).orElse
        (fun _ => lookupKey (groups.getD []) wildcardKey) }

def pairingLit : Str := "pairing".data
def allowlistLit : Str := "allowlist".data
def openLit : Str := "open".data
def disabledLit : Str := "disabled".data
def directLit : Str := "direct".data
def nullLit : Str := "null".data

/-- The account-configuration fields consulted by the admission gate. -/
structure OneBotAccountCfg where
  selfId : Option Str
  dmPolicy : Option Str
  allowFrom : List Str
  groupAllowFrom : Option (List Str)
  groupPolicy : Option Str
  groups : Option (List (Str × OneBotGroupConfig))

/-- The event fields consulted by the admission gate; `rawText` is the
(already trimmed) result of `resolveMessageText`. -/
structure InboundMessage where
  detail_type : Option Str
  user_id : Option Str
  selfUserId : Option Str
  group_id : Option Str
  guild_id : Option Str
  channel_id : Option Str
  rawText : Str

/-- `x?.toString().trim() || null`. -/
def trimOrNone (o : Option Str) : Option Str :=
  match o with
  | some s => if jsTrim s = [] then none else some (jsTrim s)
  | none => none

/-- `event.self?.user_id?.toString().trim() || account.selfId?.trim() || null`. -/
def resolvedSelfId (account : OneBotAccountCfg) (ev : InboundMessage) : Option Str :=
  (trimOrNone ev.selfUserId).orElse (fun _ => trimOrNone account.selfId)

/-- `effectiveAllowFrom = mergeAllowlists(configAllowFrom, storeAllowList)`. -/
def effectiveAllowFrom (account : OneBotAccountCfg) (store : List Str) : NormalizedAllowlist :=
  mergeAllowlists [normalizeAllowlist account.allowFrom, normalizeAllowlist store]

/-- `groupAllowFrom && groupAllowFrom.length > 0 ? configGroupAllowFrom
: configAllowFrom`. -/
def baseGroupAllowFrom (account : OneBotAccountCfg) : NormalizedAllowlist :=
  match account.groupAllowFrom with
  | some l => if l ≠ [] then normalizeAllowlist l else normalizeAllowlist account.allowFrom
  | none => normalizeAllowlist account.allowFrom

/-- `effectiveGroupAllowFrom = mergeAllowlists(baseGroupAllowFrom, storeAllowList)`. -/
def effectiveGroupAllowFrom (account : OneBotAccountCfg) (store : List Str) : NormalizedAllowlist :=
  mergeAllowlists [baseGroupAllowFrom account, normalizeAllowlist store]

inductive AdmissionResult where
  | dropped (reason : Str)
  | admitted (chatType : Str) (target : Str)
  deriving DecidableEq, Repr

def dropReasonNoDetail : Str := "no detail type".data
def dropReasonNoSender : Str := "no sender".data
def dropReasonSelf : Str := "self message".data
def dropReasonNoTarget : Str := "no target".data
def dropReasonNoConversation : Str := "no conversation id".data
def dropReasonNoText : Str := "no text".data
def dropReasonNotAllowlisted : Str := "not allowlisted".data
def dropReasonGroupDisabled : Str := "disabled".data
def dropReasonGroupPolicyDisabled : Str := "groupPolicy=disabled".data
def dropReasonGroupSender : Str := "groupPolicy=allowlist, not allowed".data
def dropReasonDmDisabled : Str := "dmPolicy=disabled".data

/-- `dmPolicy=${dmPolicy}` for a DM sender rejected by the allowlist. -/
def dropReasonDmSender (policy : Str) : Str := "dmPolicy=".data ++ policy

def isGroupOf (detailType : Str) : Bool :=
  decide (detailType = groupLit ∨ detailType = channelLit)

def chatTypeOf (detailType : Str) : Str :=
  if detailType = channelLit then channelLit
  else if isGroupOf detailType then groupLit
  else directLit

def groupKeyOf (detailType : Str) (target : Str) (groupId : Option Str) : Option Str :=
  if detailType = channelLit then some target
  else if detailType = groupLit then groupId
  else none

def conversationIdOf (detailType : Str) (guildId channelId groupId : Option Str)
    (senderId : Str) : Str :=
  if detailType = channelLit then (guildId.getD nullLit) ++ [':'] ++ (channelId.getD nullLit)
  else groupId.getD senderId

def gateGroup (account : OneBotAccountCfg) (store : List Str) (detailType senderId target : Str)
    (groupKey : Option Str) : AdmissionResult :=
  if (resolveGroupConfig account.groups groupKey).allowed = false then
    .dropped dropReasonNotAllowlisted
  else if ((resolveGroupConfig account.groups groupKey).groupConfig.map
      (fun cfg => cfg.enabled)).getD none = some false then
    .dropped dropReasonGroupDisabled
  else if account.groupPolicy.getD allowlistLit = disabledLit then
    .dropped dropReasonGroupPolicyDisabled
  else if account.groupPolicy.getD allowlistLit = allowlistLit ∧
      isAllowed (effectiveGroupAllowFrom account store) (some senderId) = false then
    .dropped dropReasonGroupSender
  else .admitted (chatTypeOf detailType) target

def gateDm (account : OneBotAccountCfg) (store : List Str) (detailType senderId target : Str) :
    AdmissionResult :=
  if account.dmPolicy.getD pairingLit = disabledLit then .dropped dropReasonDmDisabled
  else if account.dmPolicy.getD pairingLit ≠ openLit ∧
      isAllowed (effectiveAllowFrom account store) (some senderId) = false then
    .dropped (dropReasonDmSender (account.dmPolicy.getD pairingLit))
  else .admitted (chatTypeOf detailType) target

def gatePolicy (account : OneBotAccountCfg) (store : List Str) (detailType senderId target : Str)
    (groupKey : Option Str) : AdmissionResult :=
  if isGroupOf detailType then gateGroup account store detailType senderId target groupKey
  else gateDm account store detailType senderId target

def gateConversation (account : OneBotAccountCfg) (store : List Str) (ev : InboundMessage)
    (detailType senderId target : Str) : AdmissionResult :=
  if conversationIdOf detailType (trimOrNone ev.guild_id) (trimOrNone ev.channel_id)
      (trimOrNone ev.group_id) senderId = [] then
    .dropped dropReasonNoConversation
  else if ev.rawText = [] then .dropped dropReasonNoText
  else gatePolicy account store detailType senderId target
    (groupKeyOf detailType target (trimOrNone ev.group_id))

def gateTarget (account : OneBotAccountCfg) (store : List Str) (ev : InboundMessage)
    (detailType senderId : Str) : Option Str → AdmissionResult
  | none => .dropped dropReasonNoTarget
  | some target => gateConversation account store ev detailType senderId target

def gateSelf (account : OneBotAccountCfg) (store : List Str) (ev : InboundMessage)
    (detailType senderId : Str) : AdmissionResult :=
  if resolvedSelfId account ev = some senderId then .dropped dropReasonSelf
  else gateTarget account store ev detailType senderId
    (buildOneBotTargetFromEvent detailType (some senderId) (trimOrNone ev.group_id)
      (trimOrNone ev.guild_id) (trimOrNone ev.channel_id))

def gateSender (account : OneBotAccountCfg) (store : List Str) (ev : InboundMessage)
    (detailType senderId : Str) : AdmissionResult :=
  if senderId = [] then .dropped dropReasonNoSender
  else gateSelf account store ev detailType senderId

def gateDetail (account : OneBotAccountCfg) (store : List Str) (ev : InboundMessage)
    (detailType : Str) : AdmissionResult :=
  if detailType = [] then .dropped dropReasonNoDetail
  else gateSender account store ev detailType ((ev.user_id.map jsTrim).getD [])

/-- The admission decision of `handleOneBotMessage` for a message event. -/
def handleAdmission (account : OneBotAccountCfg) (store : List Str) (ev : InboundMessage) :
    AdmissionResult :=
  gateDetail account store ev (toLowerStr (jsTrim (ev.detail_type.getD [])))

/-! ## ws-client.ts: the protocol client as a state machine.

`ClientState` models the mutable fields of `OneBotClient`; each socket or
caller event is a state transition emitting a list of observable effects
(callbacks invoked, promises settled, timers armed or cancelled, frames
sent).  Timers are implicit: an action timeout can only fire while its
entry is still pending, because every removal from the pending map in the
source is paired with `clearTimeout`. -/

structure PendingEntry where
  action : Str
  timeoutMs : Nat
  deriving DecidableEq, Repr

structure ClientState where
  stopped : Bool
  wsPresent : Bool
  wsOpen : Bool
  reconnectTimer : Bool
  actionCounter : Nat
  pending : List (Str × PendingEntry)
  deriving DecidableEq, Repr

inductive ClientEffect where
  | notifyOpen
  | notifyClose
  | dispatchEvent
  | rejectAction (echo : Str) (errMsg : Str)
  | resolveAction (echo : Str)
  | clearTimeout (echo : Str)
  | scheduleReconnectTimer
  | clearReconnectTimer
  | closeSocket
  | connectAttempt
  | sendFrame (echo : Str) (action : Str)
  | rejectCall (errMsg : Str)
  deriving DecidableEq, Repr

def connClosedMsg : Str := "OneBot connection closed".data
def connStoppedMsg : Str := "OneBot connection stopped".data
def notConnectedMsg : Str := "OneBot is not connected".data
def sendFailedMsg : Str := "OneBot send failed".data
def timeoutMsgPre : Str := "OneBot action timeout: ".data

def lookupPending : List (Str × PendingEntry) → Str → Option PendingEntry
  | [], _ => none
  | (k, v) :: rest, e => if k = e then some v else lookupPending rest e

def erasePending : List (Str × PendingEntry) → Str → List (Str × PendingEntry)
  | [], _ => []
  | (k, v) :: rest, e => if k = e then erasePending rest e else (k, v) :: erasePending rest e

/-- `rejectAllPending`: clear each entry's timeout, reject it, then clear the map. -/
def rejectAllPending (s : ClientState) (errMsg : Str) : ClientState × List ClientEffect :=
  ({ s with pending := [] },
   s.pending.flatMap (fun pe => [.clearTimeout pe.1, .rejectAction pe.1 errMsg]))

/-- `scheduleReconnect`: no-op when a timer is outstanding or the client is stopped. -/
def scheduleReconnect (s : ClientState) : ClientState × List ClientEffect :=
  if s.reconnectTimer || s.stopped then (s, [])
  else ({ s with reconnectTimer := true }, [.scheduleReconnectTimer])

/-- `connect`: no-op when stopped, else a fresh (not yet open) socket. -/
def connect (s : ClientState) : ClientState × List ClientEffect :=
  if s.stopped then (s, [])
  else ({ s with wsPresent := true, wsOpen := false }, [.connectAttempt])

def handleOpen (s : ClientState) : ClientState × List ClientEffect :=
  ({ s with wsOpen := true }, [.notifyOpen])

/-- The socket `close` handler: notify, fail every pending action with a
connection-closed error, and schedule a reconnect unless stopped. -/
def handleClose (s : ClientState) : ClientState × List ClientEffect :=
  if s.stopped then
    ((rejectAllPending { s with wsOpen := false } connClosedMsg).1,
     .notifyClose :: (rejectAllPending { s with wsOpen := false } connClosedMsg).2)
  else
    ((scheduleReconnect (rejectAllPending { s with wsOpen := false } connClosedMsg).1).1,
     .notifyClose :: (rejectAllPending { s with wsOpen := false } connClosedMsg).2 ++
       (scheduleReconnect (rejectAllPending { s with wsOpen := false } connClosedMsg).1).2)

def clearReconnectTimerFn (s : ClientState) : ClientState × List ClientEffect :=
  if s.reconnectTimer then ({ s with reconnectTimer := false }, [.clearReconnectTimer])
  else (s, [])

def closeSocketFn (s : ClientState) : ClientState × List ClientEffect :=
  if s.wsPresent then ({ s with wsPresent := false, wsOpen := false }, [.closeSocket])
  else (s, [])

/-- `stop()`: set the stop flag, cancel any reconnect timer, close the
socket, and fail all pending actions. -/
def stopClient (s : ClientState) : ClientState × List ClientEffect :=
  ((rejectAllPending (closeSocketFn (clearReconnectTimerFn { s with stopped := true }).1).1
      connStoppedMsg).1,
   (clearReconnectTimerFn { s with stopped := true }).2 ++
     (closeSocketFn (clearReconnectTimerFn { s with stopped := true }).1).2 ++
     (rejectAllPending (closeSocketFn (clearReconnectTimerFn { s with stopped := true }).1).1
       connStoppedMsg).2)

/-- An inbound JSON frame: which of the four discriminating fields are
strings. -/
structure WirePayload where
  status : Option Str
  echo : Option Str
  type : Option Str
  detail_type : Option Str
  deriving DecidableEq, Repr

/-- `handlePayload`: a frame with string `status` and `echo` is an action
response (resolved if a pending entry matches, silently dropped otherwise,
and never dispatched as an event); a frame with string `type` and
`detail_type` is an event; anything else is dropped. -/
def handlePayload (s : ClientState) (p : WirePayload) : ClientState × List ClientEffect :=
  match p.status, p.echo with
  | some _, some e =>
    (match lookupPending s.pending e with
     | some _ =>
       ({ s with pending := erasePending s.pending e }, [.clearTimeout e, .resolveAction e])
     | none => (s, []))
  | _, _ =>
    match p.type, p.detail_type with
    | some _, some _ => (s, [.dispatchEvent])
    | _, _ => (s, [])

/-- The `setTimeout` callback of `sendAction`: delete the entry and reject
with a timeout error naming the action.  It can only fire while the entry
is still pending (otherwise its timer has been cleared): the `none` branch
is unreachable in the source. -/
def fireTimeout (s : ClientState) (echo : Str) : ClientState × List ClientEffect :=
  match lookupPending s.pending echo with
  | some entry =>
    ({ s with pending := erasePending s.pending echo },
     [.rejectAction echo (timeoutMsgPre ++ entry.action)])
  | none => (s, [])

/-- The echo token `onebot:<timestamp>:<counter>`. -/
def mkEcho (now counter : Nat) : Str :=
  "onebot:".data ++ (Nat.repr now).data ++ [':'] ++ (Nat.repr counter).data

/-- `sendAction`: fail immediately when the socket is not open; otherwise
allocate an echo, register the pending entry (default timeout 10000 ms) and
send the frame; a synchronous send failure unregisters and rejects. -/
def sendAction (s : ClientState) (action : Str) (timeoutOpt : Option Nat) (now : Nat)
    (sendOk : Bool) : ClientState × List ClientEffect :=
  if s.wsOpen = false then (s, [.rejectCall notConnectedMsg])
  else if sendOk then
    ({ s with
        actionCounter := s.actionCounter + 1
        pending := s.pending ++ [(mkEcho now s.actionCounter, ⟨action, timeoutOpt.getD 10000⟩)] },
     [.sendFrame (mkEcho now s.actionCounter) action])
  else
    ({ s with actionCounter := s.actionCounter + 1 },
     [.clearTimeout (mkEcho now s.actionCounter), .rejectCall sendFailedMsg])

inductive ClientEvent where
  | sockOpen
  | sockClose
  | payload (p : WirePayload)
  | stopCall
  | reconnectFire
  | actionTimeout (echo : Str)
  | send (action : Str) (timeoutOpt : Option Nat) (now : Nat) (sendOk : Bool)

/-- One step of the client state machine. -/
def step (s : ClientState) : ClientEvent → ClientState × List ClientEffect
  | .sockOpen => handleOpen s
  | .sockClose => handleClose s
  | .payload p => handlePayload s p
  | .stopCall => stopClient s
  | .reconnectFire =>
    if s.reconnectTimer then connect { s with reconnectTimer := false } else (s, [])
  | .actionTimeout echo => fireTimeout s echo
  | .send action t now ok => sendAction s action t now ok

/-! ## URL handling (ws-client.ts): `withAccessToken` and `sanitizeUrl`.

The WHATWG `URL` class is modelled by a simplified codec: a URL parses when
a non-empty all-letter scheme precedes the first `:`; the query (after the
first `?`) is `&`-separated `key=value` pairs split at the first `=`;
percent-encoding is not modelled.  `URLSearchParams.set` replaces the first
occurrence of the key and removes the rest. -/

structure UrlModel where
  base : Str
  params : List (Str × Str)
  deriving DecidableEq, Repr

def splitOnFirst (c : Char) : Str → Str × Option Str
  | [] => ([], none)
  | x :: xs =>
    if x = c then ([], some xs)
    else ((x :: (splitOnFirst c xs).1, (splitOnFirst c xs).2))

def parseQueryPiece (piece : Str) : Str × Str :=
  ((splitOnFirst '=' piece).1, ((splitOnFirst '=' piece).2).getD [])

def parseQuery (q : Str) : List (Str × Str) :=
  ((splitOnPred (fun c => c = '&') q).filter (fun x => x ≠ [])).map parseQueryPiece

def parseUrl (s : Str) : Option UrlModel :=
  match (splitOnFirst ':' s).2 with
  | none => none
  | some _ =>
    if (splitOnFirst ':' s).1 ≠ [] ∧ (splitOnFirst ':' s).1.all Char.isAlpha then
      match (splitOnFirst '?' s).2 with
      | some q => some ⟨(splitOnFirst '?' s).1, parseQuery q⟩
      | none => some ⟨s, []⟩
    else none

def accessTokenKey : Str := "access_token".data
def redactedValue : Str := "***".data
def accessTokenEq : Str := "access_token=".data

def hasParamKey (ps : List (Str × Str)) (k : Str) : Bool :=
  ps.any (fun p => decide (p.1 = k))

def removeParamKey : List (Str × Str) → Str → List (Str × Str)
  | [], _ => []
  | (k0, v) :: rest, k =>
    if k0 = k then removeParamKey rest k else (k0, v) :: removeParamKey rest k

def setParamKey : List (Str × Str) → Str → Str → List (Str × Str)
  | [], k, v => [(k, v)]
  | (k0, v0) :: rest, k, v =>
    if k0 = k then (k, v) :: removeParamKey rest k else (k0, v0) :: setParamKey rest k v

def renderQuery : List (Str × Str) → Str
  | [] => []
  | [p] => p.1 ++ ['='] ++ p.2
  | p :: rest => p.1 ++ ['='] ++ p.2 ++ ['&'] ++ renderQuery rest

def renderUrl (u : UrlModel) : Str :=
  u.base ++ (if u.params = [] then [] else '?' :: renderQuery u.params)

/-- `withAccessToken`: append the token as `access_token` unless already
present; unparseable URLs are returned unchanged. -/
def withAccessToken (url : Str) (token : Option Str) : Str :=
  match token with
  | none => url
  | some tok =>
    if tok = [] then url
    else
      match parseUrl url with
      | some u =>
        if hasParamKey u.params accessTokenKey then renderUrl u
        else renderUrl ⟨u.base, setParamKey u.params accessTokenKey tok⟩
      | none => url

/-- Does the global regex `access_token=[^&]+` match at the head of `s`? -/
def redactMatchAt (s : Str) : Bool :=
  accessTokenEq.isPrefixOf s &&
    (match s.drop accessTokenEq.length with
     | t0 :: _ => t0 != '&'
     | [] => false)

/-- `url.replace(/access_token=[^&]+/g, "access_token=***")`. -/
def redactRaw : Str → Str
  | [] => []
  | c :: rest =>
    if redactMatchAt (c :: rest) then
      accessTokenEq ++ redactedValue ++
        redactRaw (((c :: rest).drop accessTokenEq.length).dropWhile (fun x => x != '&'))
    else c :: redactRaw rest
termination_by s => s.length
decreasing_by
  · have h1 : (((c :: rest).drop accessTokenEq.length).dropWhile (fun x => x != '&')).length ≤
        ((c :: rest).drop accessTokenEq.length).length :=
      (List.dropWhile_sublist _).length_le
    have h2 : ((c :: rest).drop accessTokenEq.length).length < (c :: rest).length := by
      rw [List.length_drop]
      exact Nat.sub_lt (by simp) (by decide)
    exact Nat.lt_of_le_of_lt h1 h2
  · simp

/-- `sanitizeUrl`: redact the `access_token` parameter of a parseable URL;
regex-redact an unparseable one. -/
def sanitizeUrl (url : Str) : Str :=
  match parseUrl url with
  | some u =>
    if hasParamKey u.params accessTokenKey then
      renderUrl ⟨u.base, setParamKey u.params accessTokenKey redactedValue⟩
    else renderUrl u
  | none => redactRaw url

/-- The URL string logged by `connect`. -/
def loggedConnectUrl (wsUrl : Str) (accessToken : Option Str) : Str :=
  sanitizeUrl (withAccessToken wsUrl accessToken)

/-! ## outbound.ts: `sendOneBotMessage`. -/

/-- The `send_message` action request. -/
structure SendMessageRequest where
  detail_type : Str
  message : Str
  user_id : Option Str
  group_id : Option Str
  guild_id : Option Str
  channel_id : Option Str
  deriving DecidableEq, Repr

def buildSendRequest (parsed : OneBotTarget) (text : Str) : SendMessageRequest :=
  match parsed with
  | .user u => ⟨privateLit, text, some u, none, none, none⟩
  | .group g => ⟨groupLit, text, none, some g, none, none⟩
  | .channel g c => ⟨channelLit, text, none, none, some g, some c⟩

structure ActionResp where
  status : Option Str
  retcode : Option Int
  message : Option Str
  deriving DecidableEq, Repr

/-- The outcome of one `sendOneBotMessage` call: a thrown error, the
`send_message` request issued (if any), and the returned value (if any). -/
structure SendOutcome where
  error : Option Str
  action : Option SendMessageRequest
  result : Option (Str × Str)
  deriving DecidableEq, Repr

def okLit : Str := "ok".data
def onebotChannelLit : Str := "onebot".data
def invalidTargetMsg : Str :=
  "Invalid OneBot target. Use <user:ID|group:ID|channel:GUILD:CHANNEL>".data
def clientMissingMsg : Str := "OneBot client is not connected".data

/-- `response.status && response.status !== "ok"`. -/
def respStatusBad (resp : ActionResp) : Bool :=
  match resp.status with
  | some st => decide (st ≠ [] ∧ st ≠ okLit)
  | none => false

/-- `typeof response.retcode === "number" && response.retcode !== 0`. -/
def respRetcodeBad (resp : ActionResp) : Bool :=
  match resp.retcode with
  | some rc => decide (rc ≠ 0)
  | none => false

def statusDefaultMsg (resp : ActionResp) : Str :=
  "OneBot send_message failed (".data ++ resp.status.getD [] ++ [')']

def retcodeDefaultMsg (resp : ActionResp) : Str :=
  "OneBot send_message retcode ".data ++ (toString (resp.retcode.getD 0)).data

/-- `response.message || fallback`. -/
def respMsgOr (resp : ActionResp) (fallback : Str) : Str :=
  match resp.message with
  | some m => if m ≠ [] then m else fallback
  | none => fallback

/-- `sendOneBotMessage` from outbound.ts.  `hasClient` is whether the
client registry holds a client for the account; `resp` is the response the
client would return to the `send_message` action. -/
def sendOneBotMessage (hasClient : Bool) (resp : ActionResp) (target text : Str) : SendOutcome :=
  match parseOneBotTarget target with
  | none => ⟨some invalidTargetMsg, none, none⟩
  | some parsed =>
    if hasClient = false then ⟨some clientMissingMsg, none, none⟩
    else if jsTrim text = [] then ⟨none, none, some (onebotChannelLit, target)⟩
    else if respStatusBad resp then
      ⟨some (respMsgOr resp (statusDefaultMsg resp)),
       some (buildSendRequest parsed (jsTrim text)), none⟩
    else if respRetcodeBad resp then
      ⟨some (respMsgOr resp (retcodeDefaultMsg resp)),
       some (buildSendRequest parsed (jsTrim text)), none⟩
    else ⟨none, some (buildSendRequest parsed (jsTrim text)), some (onebotChannelLit, target)⟩

/-! ## Helper predicates used by the theorems -/

/-- Substring test (used to state token-leak facts). -/
def containsSub (sub : Str) : Str → Bool
  | [] => sub.isEmpty
  | c :: rest => sub.isPrefixOf (c :: rest) || containsSub sub rest

/-- Well-formedness of every target produced by `parseOneBotTarget`: ids are
trimmed and non-empty, and channel components contain no `/` or `:`. -/
def TargetWF : OneBotTarget → Prop
  | .user u => jsTrim u = u ∧ u ≠ []
  | .group g => jsTrim g = g ∧ g ≠ []
  | .channel g c =>
      (jsTrim g = g ∧ g ≠ [] ∧ ∀ ch ∈ g, isChanDelim ch = false) ∧
      (jsTrim c = c ∧ c ≠ [] ∧ ∀ ch ∈ c, isChanDelim ch = false)

/-- A field is present in the JavaScript sense: non-null and non-empty. -/
def presentOpt (o : Option Str) : Prop := ∃ x, o = some x ∧ x ≠ []

/-- A URL-model base whose scheme part parses: a non-empty all-letter
scheme before the first `:`, and no `?`. -/
def BaseWF (base : Str) : Prop :=
  (splitOnFirst ':' base).2.isSome = true ∧ (splitOnFirst ':' base).1 ≠ [] ∧
    (splitOnFirst ':' base).1.all Char.isAlpha = true ∧ '?' ∉ base

def QueryWF (ps : List (Str × Str)) : Prop :=
  ∀ kv ∈ ps, '&' ∉ kv.1 ∧ '=' ∉ kv.1 ∧ '&' ∉ kv.2

/-! ## String prelude lemmas -/

lemma head?_dropWhile_false {p : Char → Bool} {l : Str} {c : Char}
    (h : (l.dropWhile p).head? = some c) : p c = false := by
  have hd := List.head?_dropWhile_not p l
  rw [h] at hd
  exact hd

lemma dropWhile_eq_self_of_head {p : Char → Bool} {l : Str}
    (h : ∀ c, l.head? = some c → p c = false) : l.dropWhile p = l := by
  cases l with
  | nil => rfl
  | cons c rest => simp [List.dropWhile_cons, h c rfl]

lemma getLast?_dropWhile_of_ne_nil {p : Char → Bool} {l : Str}
    (h : l.dropWhile p ≠ []) : (l.dropWhile p).getLast? = l.getLast? := by
  obtain ⟨pre, hpre⟩ := List.dropWhile_suffix (l := l) p
  conv_rhs => rw [← hpre]
  rw [List.getLast?_append]
  cases hd : (l.dropWhile p).getLast? with
  | none => exact absurd (List.getLast?_eq_none_iff.mp hd) h
  | some c => simp

lemma jsTrim_head? {s : Str} {c : Char} (h : (jsTrim s).head? = some c) :
    isWsChar c = false := by
  unfold jsTrim at h
  rw [List.head?_reverse] at h
  set a := s.dropWhile isWsChar with ha
  set b := a.reverse.dropWhile isWsChar with hb
  have hbne : b ≠ [] := by
    intro hnil
    rw [hnil] at h
    simp at h
  rw [getLast?_dropWhile_of_ne_nil hbne, List.getLast?_reverse] at h
  exact head?_dropWhile_false h

lemma jsTrim_getLast? {s : Str} {c : Char} (h : (jsTrim s).getLast? = some c) :
    isWsChar c = false := by
  unfold jsTrim at h
  rw [List.getLast?_reverse] at h
  exact head?_dropWhile_false h

lemma jsTrim_eq_self_of_ends {s : Str}
    (h1 : ∀ c, s.head? = some c → isWsChar c = false)
    (h2 : ∀ c, s.getLast? = some c → isWsChar c = false) : jsTrim s = s := by
  unfold jsTrim
  rw [dropWhile_eq_self_of_head h1]
  rw [dropWhile_eq_self_of_head (by
    intro c hc
    rw [List.head?_reverse] at hc
    exact h2 c hc)]
  exact List.reverse_reverse s

lemma jsTrim_idem (s : Str) : jsTrim (jsTrim s) = jsTrim s :=
  jsTrim_eq_self_of_ends (fun _ hc => jsTrim_head? hc) (fun _ hc => jsTrim_getLast? hc)

lemma jsTrim_append_ends {x y : Str} (hx : x ≠ [])
    (h1 : ∀ c, x.head? = some c → isWsChar c = false)
    (hy : y ≠ []) (h2 : ∀ c, y.getLast? = some c → isWsChar c = false) :
    jsTrim (x ++ y) = x ++ y := by
  apply jsTrim_eq_self_of_ends
  · intro c hc
    rw [List.head?_append] at hc
    cases hhx : x.head? with
    | none => exact absurd (List.head?_eq_none_iff.mp hhx) hx
    | some d =>
      rw [hhx] at hc
      simp at hc
      exact h1 c (by rw [hhx, hc])
  · intro c hc
    rw [List.getLast?_append] at hc
    cases hhy : y.getLast? with
    | none => exact absurd (List.getLast?_eq_none_iff.mp hhy) hy
    | some d =>
      rw [hhy] at hc
      simp at hc
      exact h2 c (by rw [hhy, hc])

lemma mem_jsTrim {s : Str} {c : Char} (h : c ∈ jsTrim s) : c ∈ s := by
  unfold jsTrim at h
  rw [List.mem_reverse] at h
  have h2 := List.dropWhile_subset (l := (s.dropWhile isWsChar).reverse) isWsChar h
  rw [List.mem_reverse] at h2
  exact List.dropWhile_subset isWsChar h2

lemma toLowerStr_append (a b : Str) : toLowerStr (a ++ b) = toLowerStr a ++ toLowerStr b :=
  List.map_append _ a b

lemma isPrefixOf_append_self (l t : Str) : List.isPrefixOf l (l ++ t) = true := by
  induction l with
  | nil => simp [List.isPrefixOf]
  | cons c cs ih => simp [List.isPrefixOf, ih]

lemma isPrefixOf_cons_ne {a b : Char} (as bs : Str) (h : (a == b) = false) :
    List.isPrefixOf (a :: as) (b :: bs) = false := by
  simp [List.isPrefixOf, h]

lemma isPrefixOf_lower_cons_ne {a b : Char} {pre rest : Str}
    (h : (a == Char.toLower b) = false) :
    List.isPrefixOf (a :: pre) (toLowerStr (b :: rest)) = false := by
  simp only [toLowerStr, List.map_cons]
  exact isPrefixOf_cons_ne _ _ h

lemma splitOnPred_ne_nil (p : Char → Bool) (s : Str) : splitOnPred p s ≠ [] := by
  cases s with
  | nil => simp [splitOnPred]
  | cons c rest =>
    unfold splitOnPred
    split <;> simp

lemma splitOnPred_cons (p : Char → Bool) (c : Char) (rest : Str) :
    splitOnPred p (c :: rest) =
      if p c then [] :: splitOnPred p rest
      else (c :: (splitOnPred p rest).headI) :: (splitOnPred p rest).tail := rfl

lemma splitOnPred_cons_pos {p : Char → Bool} {c : Char} (rest : Str) (h : p c = true) :
    splitOnPred p (c :: rest) = [] :: splitOnPred p rest := by
  rw [splitOnPred_cons, if_pos h]

lemma splitOnPred_cons_neg {p : Char → Bool} {c : Char} (rest : Str) (h : p c = false) :
    splitOnPred p (c :: rest) =
      (c :: (splitOnPred p rest).headI) :: (splitOnPred p rest).tail := by
  rw [splitOnPred_cons, if_neg (by simp [h])]

lemma headI_cons_tail {l : List Str} (h : l ≠ []) : l.headI :: l.tail = l := by
  cases l with
  | nil => exact absurd rfl h
  | cons a t => rfl

lemma splitOnPred_append_not {p : Char → Bool} {a : Str} (s : Str)
    (ha : ∀ c ∈ a, p c = false) :
    splitOnPred p (a ++ s) =
      (a ++ (splitOnPred p s).headI) :: (splitOnPred p s).tail := by
  induction a with
  | nil =>
    simp only [List.nil_append]
    exact (headI_cons_tail (splitOnPred_ne_nil p s)).symm
  | cons c cs ih =>
    have hc : p c = false := ha c (List.mem_cons_self c cs)
    have ih' := ih (fun d hd => ha d (List.mem_cons_of_mem c hd))
    rw [List.cons_append, splitOnPred_cons_neg _ hc, ih']
    simp

lemma splitOnPred_single {p : Char → Bool} {a : Str} (ha : ∀ c ∈ a, p c = false) :
    splitOnPred p a = [a] := by
  have h := splitOnPred_append_not (p := p) [] ha
  rw [List.append_nil] at h
  rw [h]
  simp [splitOnPred]

lemma splitOnPred_pieces {p : Char → Bool} (s : Str) :
    ∀ piece ∈ splitOnPred p s, ∀ c ∈ piece, p c = false := by
  induction s with
  | nil =>
    intro piece hp c hc
    simp [splitOnPred] at hp
    subst hp
    simp at hc
  | cons x rest ih =>
    intro piece hp c hc
    by_cases hx : p x = true
    · rw [splitOnPred_cons_pos rest hx] at hp
      rcases List.mem_cons.mp hp with h | h
      · subst h; simp at hc
      · exact ih piece h c hc
    · rw [splitOnPred_cons_neg rest (Bool.eq_false_iff.mpr hx)] at hp
      rcases List.mem_cons.mp hp with h | h
      · subst h
        rcases List.mem_cons.mp hc with h2 | h2
        · subst h2; exact Bool.eq_false_iff.mpr hx
        · have hmem : (splitOnPred p rest).headI ∈ splitOnPred p rest := by
            have hne := splitOnPred_ne_nil p rest
            cases hs : splitOnPred p rest with
            | nil => exact absurd hs hne
            | cons h0 t0 => simp
          exact ih _ hmem c h2
      · have hmem : piece ∈ splitOnPred p rest := by
          have hne := splitOnPred_ne_nil p rest
          cases hs : splitOnPred p rest with
          | nil => exact absurd hs hne
          | cons h0 t0 =>
            rw [hs] at h
            exact hs ▸ List.mem_cons_of_mem h0 h
        exact ih piece hmem c hc

lemma stripPrefixOf_some_eq {input p r : Str} (h : stripPrefixOf input p = some r) :
    r = jsTrim (input.drop p.length) := by
  unfold stripPrefixOf at h
  split at h
  · exact (Option.some.injEq _ _ ▸ h).symm
  · exact absurd h (by simp)

lemma stripPrefixOf_none {input p : Str} (h : List.isPrefixOf p (toLowerStr input) = false) :
    stripPrefixOf input p = none := by
  unfold stripPrefixOf
  simp [h]

lemma stripPrefixOf_self_append {p u : Str} (hlow : toLowerStr p = p) :
    stripPrefixOf (p ++ u) p = some (jsTrim u) := by
  unfold stripPrefixOf
  rw [toLowerStr_append, hlow]
  rw [if_pos (isPrefixOf_append_self p (toLowerStr u))]
  rw [List.drop_left]

lemma trimmed_head_ws {u : Str} (hu : jsTrim u = u) :
    ∀ c, u.head? = some c → isWsChar c = false :=
  fun _ hc => jsTrim_head? (by rw [hu]; exact hc)

lemma trimmed_last_ws {u : Str} (hu : jsTrim u = u) :
    ∀ c, u.getLast? = some c → isWsChar c = false :=
  fun _ hc => jsTrim_getLast? (by rw [hu]; exact hc)

lemma normalizeRawTarget_eq_self {s : Str} (htrim : jsTrim s = s)
    (hpre : List.isPrefixOf onebotPre (toLowerStr s) = false) :
    normalizeRawTarget s = s := by
  simp [normalizeRawTarget, htrim, hpre]

lemma firstUserRest_wf {raw : Str} {ps : List Str} {r : Str}
    (h : firstUserRest raw ps = some r) : jsTrim r = r ∧ r ≠ [] := by
  induction ps with
  | nil => exact absurd h (by simp [firstUserRest])
  | cons p ps ih =>
    unfold firstUserRest at h
    split at h
    · rename_i r' heq
      by_cases hr : r' = []
      · rw [if_neg (by simp [hr])] at h
        exact ih h
      · rw [if_pos hr] at h
        injection h with h
        subst h
        have he := stripPrefixOf_some_eq heq
        refine ⟨?_, hr⟩
        rw [he]
        exact jsTrim_idem _
    · exact ih h

lemma parts_elem_wf {r x : Str}
    (hx : x ∈ ((splitOnPred isChanDelim r).map jsTrim).filter (fun y => y ≠ [])) :
    jsTrim x = x ∧ x ≠ [] ∧ ∀ ch ∈ x, isChanDelim ch = false := by
  rw [List.mem_filter] at hx
  obtain ⟨hmap, hne⟩ := hx
  obtain ⟨piece, hpiece, heq⟩ := List.mem_map.mp hmap
  subst heq
  refine ⟨jsTrim_idem piece, by simpa using hne, ?_⟩
  intro ch hch
  exact splitOnPred_pieces r piece hpiece ch (mem_jsTrim hch)

lemma channelLoop_wf {raw : Str} {ps : List Str} {t : OneBotTarget}
    (h : channelLoop raw ps = some t) : TargetWF t := by
  induction ps with
  | nil => exact absurd h (by simp [channelLoop])
  | cons p ps ih =>
    unfold channelLoop at h
    split at h
    · rename_i r heq
      by_cases hr : r = []
      · rw [if_neg (by simp [hr])] at h; exact ih h
      · rw [if_pos hr] at h
        split at h
        · rename_i p0 p1 tail hps
          injection h with h
          subst h
          constructor
          · exact parts_elem_wf (hps ▸ List.mem_cons_self p0 _)
          · exact parts_elem_wf (hps ▸ List.mem_cons_of_mem p0 (List.mem_cons_self p1 _))
        · exact absurd h (by simp)
    · exact ih h

lemma parseRaw_wf {raw : Str} {t : OneBotTarget} (h : parseRaw raw = some t) : TargetWF t := by
  unfold parseRaw at h
  by_cases hraw : raw = []
  · rw [if_pos hraw] at h; exact absurd h (by simp)
  · rw [if_neg hraw] at h
    split at h
    · rename_i uid hf
      injection h with h
      subst h
      exact firstUserRest_wf hf
    · rename_i hf
      split at h
      · rename_i g hg
        by_cases hge : g = []
        · rw [if_neg (by simp [hge])] at h
          exact channelLoop_wf h
        · rw [if_pos hge] at h
          injection h with h
          subst h
          have he := stripPrefixOf_some_eq hg
          refine ⟨?_, hge⟩
          rw [he]
          exact jsTrim_idem _
      · exact channelLoop_wf h

lemma parse_wf {s : Str} {t : OneBotTarget} (h : parseOneBotTarget s = some t) : TargetWF t :=
  parseRaw_wf h

lemma getLast?_append_right {x y : Str} (hy : y ≠ []) : (x ++ y).getLast? = y.getLast? := by
  rw [List.getLast?_append]
  cases hg : y.getLast? with
  | none => exact absurd (List.getLast?_eq_none_iff.mp hg) hy
  | some d => simp

lemma parse_render_user {u : Str} (hu : jsTrim u = u) (hnu : u ≠ []) :
    parseOneBotTarget (userPre ++ u) = some (.user u) := by
  have htrim : jsTrim (userPre ++ u) = userPre ++ u :=
    jsTrim_append_ends (by simp [userPre])
      (by intro c hc; simp [userPre] at hc; subst hc; decide)
      hnu (trimmed_last_ws hu)
  have hpre : List.isPrefixOf onebotPre (toLowerStr (userPre ++ u)) = false := by
    have h0 : List.isPrefixOf ('o' :: ['n', 'e', 'b', 'o', 't', ':'])
        (toLowerStr ('u' :: (['s', 'e', 'r', ':'] ++ u))) = false :=
      isPrefixOf_lower_cons_ne (by decide)
    exact h0
  have hraw : normalizeRawTarget (userPre ++ u) = userPre ++ u :=
    normalizeRawTarget_eq_self htrim hpre
  have h1 : stripPrefixOf (userPre ++ u) userPre = some u := by
    rw [stripPrefixOf_self_append (by decide), hu]
  have hf : firstUserRest (userPre ++ u) [userPre, privatePre, dmPre, qqPre] = some u := by
    unfold firstUserRest
    rw [h1]
    show (if u ≠ [] then some u
        else firstUserRest (userPre ++ u) [privatePre, dmPre, qqPre]) = some u
    rw [if_pos hnu]
  unfold parseOneBotTarget
  rw [hraw]
  unfold parseRaw
  rw [if_neg (by simp [userPre]), hf]

lemma parse_render_group {g : Str} (hg : jsTrim g = g) (hng : g ≠ []) :
    parseOneBotTarget (groupPre ++ g) = some (.group g) := by
  have htrim : jsTrim (groupPre ++ g) = groupPre ++ g :=
    jsTrim_append_ends (by simp [groupPre])
      (by intro c hc; simp [groupPre] at hc; subst hc; decide)
      hng (trimmed_last_ws hg)
  have hpre : List.isPrefixOf onebotPre (toLowerStr (groupPre ++ g)) = false := by
    have h0 : List.isPrefixOf ('o' :: ['n', 'e', 'b', 'o', 't', ':'])
        (toLowerStr ('g' :: (['r', 'o', 'u', 'p', ':'] ++ g))) = false :=
      isPrefixOf_lower_cons_ne (by decide)
    exact h0
  have hraw : normalizeRawTarget (groupPre ++ g) = groupPre ++ g :=
    normalizeRawTarget_eq_self htrim hpre
  have hu1 : stripPrefixOf (groupPre ++ g) userPre = none :=
    stripPrefixOf_none (isPrefixOf_lower_cons_ne (by decide))
  have hu2 : stripPrefixOf (groupPre ++ g) privatePre = none :=
    stripPrefixOf_none (isPrefixOf_lower_cons_ne (by decide))
  have hu3 : stripPrefixOf (groupPre ++ g) dmPre = none :=
    stripPrefixOf_none (isPrefixOf_lower_cons_ne (by decide))
  have hu4 : stripPrefixOf (groupPre ++ g) qqPre = none :=
    stripPrefixOf_none (isPrefixOf_lower_cons_ne (by decide))
  have hf : firstUserRest (groupPre ++ g) [userPre, privatePre, dmPre, qqPre] = none := by
    simp only [firstUserRest, hu1, hu2, hu3, hu4]
  have hgp : stripPrefixOf (groupPre ++ g) groupPre = some g := by
    rw [stripPrefixOf_self_append (by decide), hg]
  unfold parseOneBotTarget
  rw [hraw]
  unfold parseRaw
  rw [if_neg (by simp [groupPre]), hf, hgp]
  show (if g ≠ [] then some (OneBotTarget.group g)
      else channelLoop (groupPre ++ g) [channelPre, guildPre]) = some (.group g)
  rw [if_pos hng]

lemma parse_render_channel {g c : Str}
    (hg : jsTrim g = g) (hng : g ≠ []) (hdg : ∀ ch ∈ g, isChanDelim ch = false)
    (hc : jsTrim c = c) (hnc : c ≠ []) (hdc : ∀ ch ∈ c, isChanDelim ch = false) :
    parseOneBotTarget (channelPre ++ g ++ [':'] ++ c) = some (.channel g c) := by
  have hassoc : channelPre ++ g ++ [':'] ++ c = channelPre ++ (g ++ (':' :: c)) := by
    rw [List.append_assoc, List.append_assoc]
    rfl
  rw [hassoc]
  set y := g ++ (':' :: c) with hy
  have hny : y ≠ [] := by simp [hy, hng]
  have hylast : ∀ ch, y.getLast? = some ch → isWsChar ch = false := by
    intro ch hch
    rw [hy, getLast?_append_right (by simp)] at hch
    rw [show (':' :: c) = [':'] ++ c from rfl, getLast?_append_right hnc] at hch
    exact trimmed_last_ws hc ch hch
  have hytrim : jsTrim y = y := by
    rw [hy]
    exact jsTrim_append_ends hng (trimmed_head_ws hg) (by simp) (by
      intro ch hch
      rw [show (':' :: c) = [':'] ++ c from rfl, getLast?_append_right hnc] at hch
      exact trimmed_last_ws hc ch hch)
  have htrim : jsTrim (channelPre ++ y) = channelPre ++ y :=
    jsTrim_append_ends (by simp [channelPre])
      (by intro ch hch; simp [channelPre] at hch; subst hch; decide)
      hny hylast
  have hpre : List.isPrefixOf onebotPre (toLowerStr (channelPre ++ y)) = false := by
    have h0 : List.isPrefixOf ('o' :: ['n', 'e', 'b', 'o', 't', ':'])
        (toLowerStr ('c' :: (['h', 'a', 'n', 'n', 'e', 'l', ':'] ++ y))) = false :=
      isPrefixOf_lower_cons_ne (by decide)
    exact h0
  have hraw : normalizeRawTarget (channelPre ++ y) = channelPre ++ y :=
    normalizeRawTarget_eq_self htrim hpre
  have hu1 : stripPrefixOf (channelPre ++ y) userPre = none :=
    stripPrefixOf_none (isPrefixOf_lower_cons_ne (by decide))
  have hu2 : stripPrefixOf (channelPre ++ y) privatePre = none :=
    stripPrefixOf_none (isPrefixOf_lower_cons_ne (by decide))
  have hu3 : stripPrefixOf (channelPre ++ y) dmPre = none :=
    stripPrefixOf_none (isPrefixOf_lower_cons_ne (by decide))
  have hu4 : stripPrefixOf (channelPre ++ y) qqPre = none :=
    stripPrefixOf_none (isPrefixOf_lower_cons_ne (by decide))
  have hf : firstUserRest (channelPre ++ y) [userPre, privatePre, dmPre, qqPre] = none := by
    simp only [firstUserRest, hu1, hu2, hu3, hu4]
  have hgp : stripPrefixOf (channelPre ++ y) groupPre = none :=
    stripPrefixOf_none (isPrefixOf_lower_cons_ne (by decide))
  have hcp : stripPrefixOf (channelPre ++ y) channelPre = some y := by
    rw [stripPrefixOf_self_append (by decide), hytrim]
  have hsplit : splitOnPred isChanDelim y = [g, c] := by
    rw [hy, splitOnPred_append_not _ hdg]
    rw [splitOnPred_cons_pos _ (by decide), splitOnPred_single hdc]
    simp
  have hparts : ((splitOnPred isChanDelim y).map jsTrim).filter (fun x => x ≠ []) = [g, c] := by
    rw [hsplit]
    simp [hg, hc, hng, hnc]
  have hloop : channelLoop (channelPre ++ y) [channelPre, guildPre] = some (.channel g c) := by
    unfold channelLoop
    rw [hcp]
    show (if y ≠ [] then
        match ((splitOnPred isChanDelim y).map jsTrim).filter (fun x => x ≠ []) with
        | p0 :: p1 :: _ => some (OneBotTarget.channel p0 p1)
        | _ => none
      else channelLoop (channelPre ++ y) [guildPre]) = some (.channel g c)
    rw [if_pos hny, hparts]
  unfold parseOneBotTarget
  rw [hraw]
  unfold parseRaw
  rw [if_neg (by simp [channelPre]), hf, hgp, hloop]


/-- C1: round-trip stability of parse/normalize; failed parses pass through trimmed. -/
theorem target_parse_normalize_roundtrip :
    (∀ s t, parseOneBotTarget s = some t →
      parseOneBotTarget (normalizeOneBotMessagingTarget s) = parseOneBotTarget s) ∧
    (∀ s, parseOneBotTarget s = none → normalizeOneBotMessagingTarget s = jsTrim s) := by
  constructor
  · intro s t h
    have hwf := parse_wf h
    rw [h]
    unfold normalizeOneBotMessagingTarget
    rw [h]
    cases t with
    | user u => exact parse_render_user hwf.1 hwf.2
    | group g => exact parse_render_group hwf.1 hwf.2
    | channel g c =>
      obtain ⟨⟨hg, hng, hdg⟩, hc, hnc, hdc⟩ := hwf
      exact parse_render_channel hg hng hdg hc hnc hdc
  · intro s h
    unfold normalizeOneBotMessagingTarget
    rw [h]

theorem target_parse_normalize_roundtrip_witness :
    parseOneBotTarget (normalizeOneBotMessagingTarget "group:987".data) =
      parseOneBotTarget "group:987".data ∧
    normalizeOneBotMessagingTarget "zzz".data = jsTrim "zzz".data :=
  ⟨target_parse_normalize_roundtrip.1 "group:987".data (.group "987".data) (by decide),
   target_parse_normalize_roundtrip.2 "zzz".data (by decide)⟩

/-- C8: channel parsing examples and the two-nonempty-segments invariant. -/
theorem channel_parse_two_segments :
    parseOneBotTarget "onebot:channel:g1/c1".data = some (.channel "g1".data "c1".data) ∧
    parseOneBotTarget "channel:onlyone".data = none ∧
    (∀ s g c, parseOneBotTarget s = some (.channel g c) → g ≠ [] ∧ c ≠ []) := by
  refine ⟨by decide, by decide, ?_⟩
  intro s g c h
  have hwf := parse_wf h
  exact ⟨hwf.1.2.1, hwf.2.2.1⟩

theorem channel_parse_two_segments_witness :
    ("g1".data : Str) ≠ [] ∧ ("c1".data : Str) ≠ [] :=
  channel_parse_two_segments.2.2 "onebot:channel:g1/c1".data "g1".data "c1".data (by decide)

lemma reqField_none (f : Str → Str) : reqField none f = none := rfl

lemma reqField_some (v : Str) (f : Str → Str) :
    reqField (some v) f = if v ≠ [] then some (f v) else none := rfl

lemma reqField_some_iff {o : Option Str} {f : Str → Str} :
    (∃ a, reqField o f = some a) ↔ presentOpt o := by
  constructor
  · rintro ⟨a, ha⟩
    cases o with
    | none => simp [reqField_none] at ha
    | some v =>
      rw [reqField_some] at ha
      by_cases hv : v = []
      · rw [if_neg (by simp [hv])] at ha
        simp at ha
      · exact ⟨v, rfl, hv⟩
  · rintro ⟨v, hv, hnv⟩
    subst hv
    exact ⟨f v, by rw [reqField_some, if_pos hnv]⟩

lemma reqField_shape {o : Option Str} {f : Str → Str} {a : Str}
    (h : reqField o f = some a) : ∃ v, v ≠ [] ∧ a = f v := by
  cases o with
  | none => simp [reqField_none] at h
  | some v =>
    rw [reqField_some] at h
    by_cases hv : v = []
    · rw [if_neg (by simp [hv])] at h
      simp at h
    · rw [if_pos hv] at h
      injection h with h
      exact ⟨v, hv, h.symm⟩

lemma reqPair_some_iff {o1 o2 : Option Str} {f : Str → Str → Str} :
    (∃ a, reqPair o1 o2 f = some a) ↔ presentOpt o1 ∧ presentOpt o2 := by
  constructor
  · rintro ⟨a, ha⟩
    cases o1 with
    | none => simp [reqPair] at ha
    | some v =>
      cases o2 with
      | none => simp [reqPair] at ha
      | some w =>
        by_cases hvw : v ≠ [] ∧ w ≠ []
        · exact ⟨⟨v, rfl, hvw.1⟩, ⟨w, rfl, hvw.2⟩⟩
        · rw [show reqPair (some v) (some w) f =
              (if v ≠ [] ∧ w ≠ [] then some (f v w) else none) from rfl, if_neg hvw] at ha
          simp at ha
  · rintro ⟨⟨v, hv, hnv⟩, ⟨w, hw, hnw⟩⟩
    subst hv
    subst hw
    exact ⟨f v w, by
      rw [show reqPair (some v) (some w) f =
          (if v ≠ [] ∧ w ≠ [] then some (f v w) else none) from rfl, if_pos ⟨hnv, hnw⟩]⟩

lemma reqPair_shape {o1 o2 : Option Str} {f : Str → Str → Str} {a : Str}
    (h : reqPair o1 o2 f = some a) : ∃ v w, v ≠ [] ∧ w ≠ [] ∧ a = f v w := by
  cases o1 with
  | none => simp [reqPair] at h
  | some v =>
    cases o2 with
    | none => simp [reqPair] at h
    | some w =>
      rw [show reqPair (some v) (some w) f =
          (if v ≠ [] ∧ w ≠ [] then some (f v w) else none) from rfl] at h
      by_cases hvw : v ≠ [] ∧ w ≠ []
      · rw [if_pos hvw] at h
        injection h with h
        exact ⟨v, w, hvw.1, hvw.2, h.symm⟩
      · rw [if_neg hvw] at h
        simp at h

/-- C7: detail-type dispatch of buildOneBotTargetFromEvent. -/
theorem fromEvent_detail_mapping :
    ∀ dt u g gi ci,
      ((toLowerStr (jsTrim dt) = privateLit ∨ toLowerStr (jsTrim dt) = userLit ∨
          toLowerStr (jsTrim dt) = dmLit) →
        ((∃ a, buildOneBotTargetFromEvent dt u g gi ci = some a) ↔ presentOpt u) ∧
        (∀ a, buildOneBotTargetFromEvent dt u g gi ci = some a → ∃ uid, a = userPre ++ uid)) ∧
      (toLowerStr (jsTrim dt) = groupLit →
        ((∃ a, buildOneBotTargetFromEvent dt u g gi ci = some a) ↔ presentOpt g) ∧
        (∀ a, buildOneBotTargetFromEvent dt u g gi ci = some a → ∃ gid, a = groupPre ++ gid)) ∧
      (toLowerStr (jsTrim dt) = channelLit →
        ((∃ a, buildOneBotTargetFromEvent dt u g gi ci = some a) ↔
          (presentOpt gi ∧ presentOpt ci)) ∧
        (∀ a, buildOneBotTargetFromEvent dt u g gi ci = some a →
          ∃ gg cc, a = channelPre ++ gg ++ [':'] ++ cc)) ∧
      (¬(toLowerStr (jsTrim dt) = privateLit ∨ toLowerStr (jsTrim dt) = userLit ∨
          toLowerStr (jsTrim dt) = dmLit ∨ toLowerStr (jsTrim dt) = groupLit ∨
          toLowerStr (jsTrim dt) = channelLit) →
        buildOneBotTargetFromEvent dt u g gi ci = none) := by
  intro dt u g gi ci
  unfold buildOneBotTargetFromEvent buildTargetUponDetail
  refine ⟨?_, ?_, ?_, ?_⟩
  · intro hd
    rw [if_pos hd]
    exact ⟨reqField_some_iff, fun a ha => by
      obtain ⟨v, hv, hav⟩ := reqField_shape ha
      exact ⟨v, hav⟩⟩
  · intro hd
    rw [hd, if_neg (by decide), if_pos rfl]
    exact ⟨reqField_some_iff, fun a ha => by
      obtain ⟨v, hv, hav⟩ := reqField_shape ha
      exact ⟨v, hav⟩⟩
  · intro hd
    rw [hd, if_neg (by decide), if_neg (by decide), if_pos rfl]
    exact ⟨reqPair_some_iff, fun a ha => by
      obtain ⟨v, w, hv, hw, havw⟩ := reqPair_shape ha
      exact ⟨v, w, havw⟩⟩
  · intro hd
    push_neg at hd
    obtain ⟨h1, h2, h3, h4, h5⟩ := hd
    rw [if_neg (by simp [h1, h2, h3]), if_neg h4, if_neg h5]

theorem fromEvent_detail_mapping_witness :
    (∃ a, buildOneBotTargetFromEvent "group".data (some "1".data) (some "42".data) none none =
      some a) ∧
    ¬(∃ a, buildOneBotTargetFromEvent "group".data (some "1".data) none none none = some a) := by
  have h := fromEvent_detail_mapping "group".data (some "1".data) (some "42".data) none none
  have h2 := fromEvent_detail_mapping "group".data (some "1".data) none none none
  constructor
  · exact (h.2.1 (by decide)).1.mpr ⟨"42".data, rfl, by decide⟩
  · intro hex
    obtain ⟨x, hx, _⟩ := (h2.2.1 (by decide)).1.mp hex
    exact absurd hx (by simp)

/-! ## Admission-gate lemmas -/

lemma gateTarget_some (account : OneBotAccountCfg) (store : List Str) (ev : InboundMessage)
    (detailType senderId target : Str) :
    gateTarget account store ev detailType senderId (some target) =
      gateConversation account store ev detailType senderId target := rfl

lemma trimOrNone_props {o : Option Str} {x : Str} (h : trimOrNone o = some x) :
    x ≠ [] ∧ jsTrim x = x := by
  cases o with
  | none => exact absurd h (by simp [trimOrNone])
  | some s =>
    rw [show trimOrNone (some s) = (if jsTrim s = [] then none else some (jsTrim s)) from rfl]
      at h
    by_cases hs : jsTrim s = []
    · rw [if_pos hs] at h
      exact absurd h (by simp)
    · rw [if_neg hs] at h
      injection h with h
      subst h
      exact ⟨hs, jsTrim_idem s⟩

lemma buildTarget_user_eval {sid : Str} (hs : sid ≠ []) (d : Str)
    (hd : d = privateLit ∨ d = userLit ∨ d = dmLit) (g gi ci : Option Str) :
    buildOneBotTargetFromEvent d (some sid) g gi ci = some (userPre ++ sid) := by
  unfold buildOneBotTargetFromEvent
  rcases hd with h | h | h <;> subst h
  · rw [show toLowerStr (jsTrim privateLit) = privateLit from by decide]
    unfold buildTargetUponDetail
    rw [if_pos (Or.inl rfl), reqField_some, if_pos hs]
  · rw [show toLowerStr (jsTrim userLit) = userLit from by decide]
    unfold buildTargetUponDetail
    rw [if_pos (Or.inr (Or.inl rfl)), reqField_some, if_pos hs]
  · rw [show toLowerStr (jsTrim dmLit) = dmLit from by decide]
    unfold buildTargetUponDetail
    rw [if_pos (Or.inr (Or.inr rfl)), reqField_some, if_pos hs]

lemma buildTarget_group_eval {gid : Str} (hgid : gid ≠ []) (u gi ci : Option Str) :
    buildOneBotTargetFromEvent groupLit u (some gid) gi ci = some (groupPre ++ gid) := by
  unfold buildOneBotTargetFromEvent
  rw [show toLowerStr (jsTrim groupLit) = groupLit from by decide]
  unfold buildTargetUponDetail
  rw [if_neg (by decide), if_pos rfl, reqField_some, if_pos hgid]

lemma buildTarget_channel_eval {gg cc : Str} (hgg : gg ≠ []) (hcc : cc ≠ [])
    (u g : Option Str) :
    buildOneBotTargetFromEvent channelLit u g (some gg) (some cc) =
      some (channelPre ++ gg ++ [':'] ++ cc) := by
  unfold buildOneBotTargetFromEvent
  rw [show toLowerStr (jsTrim channelLit) = channelLit from by decide]
  unfold buildTargetUponDetail
  rw [if_neg (by decide), if_neg (by decide), if_pos rfl]
  rw [show reqPair (some gg) (some cc) (fun g c => channelPre ++ g ++ [':'] ++ c) =
      (if gg ≠ [] ∧ cc ≠ [] then some (channelPre ++ gg ++ [':'] ++ cc) else none) from rfl]
  rw [if_pos ⟨hgg, hcc⟩]

lemma handleAdmission_chain (account : OneBotAccountCfg) (store : List Str)
    {ev : InboundMessage} {d sid target : Str}
    (hd : toLowerStr (jsTrim (ev.detail_type.getD [])) = d) (hdne : d ≠ [])
    (hsid : (ev.user_id.map jsTrim).getD [] = sid) (hsne : sid ≠ [])
    (hself : resolvedSelfId account ev ≠ some sid)
    (hb : buildOneBotTargetFromEvent d (some sid) (trimOrNone ev.group_id)
      (trimOrNone ev.guild_id) (trimOrNone ev.channel_id) = some target)
    (hconv : conversationIdOf d (trimOrNone ev.guild_id) (trimOrNone ev.channel_id)
      (trimOrNone ev.group_id) sid ≠ [])
    (htext : ev.rawText ≠ []) :
    handleAdmission account store ev =
      gatePolicy account store d sid target (groupKeyOf d target (trimOrNone ev.group_id)) := by
  unfold handleAdmission
  rw [hd]
  unfold gateDetail
  rw [if_neg hdne, hsid]
  unfold gateSender
  rw [if_neg hsne]
  unfold gateSelf
  rw [if_neg hself, hb, gateTarget_some]
  unfold gateConversation
  rw [if_neg hconv, if_neg htext]

lemma gatePolicy_dm {account : OneBotAccountCfg} {store : List Str} {d sid target : Str}
    {gk : Option Str} (hng : isGroupOf d = false) :
    gatePolicy account store d sid target gk = gateDm account store d sid target := by
  simp [gatePolicy, hng]

lemma gatePolicy_group {account : OneBotAccountCfg} {store : List Str} {d sid target : Str}
    {gk : Option Str} (hg : isGroupOf d = true) :
    gatePolicy account store d sid target gk = gateGroup account store d sid target gk := by
  simp [gatePolicy, hg]

lemma gateDm_open {account : OneBotAccountCfg} {store : List Str} {d sid target : Str}
    (hopen : account.dmPolicy = some openLit) :
    gateDm account store d sid target = .admitted (chatTypeOf d) target := by
  unfold gateDm
  rw [hopen, show (some openLit).getD pairingLit = openLit from rfl]
  rw [if_neg (by decide), if_neg (by simp)]

lemma gateDm_disabled {account : OneBotAccountCfg} {store : List Str} {d sid target : Str}
    (hdis : account.dmPolicy = some disabledLit) :
    gateDm account store d sid target = .dropped dropReasonDmDisabled := by
  unfold gateDm
  rw [hdis, show (some disabledLit).getD pairingLit = disabledLit from rfl]
  rw [if_pos rfl]

lemma conversationIdOf_ne_nil_of_not_channel {d : Str} (hd : d ≠ channelLit)
    {gi ci go : Option Str} {sid : Str} (hs : sid ≠ [])
    (hgo : ∀ x, go = some x → x ≠ []) :
    conversationIdOf d gi ci go sid ≠ [] := by
  unfold conversationIdOf
  rw [if_neg hd]
  cases hgo2 : go with
  | none => simpa using hs
  | some x => simpa using hgo x hgo2

/-- C2: DM admission under `open` and `disabled`. -/
theorem dm_policy_open_disabled :
    ∀ account store ev,
      (toLowerStr (jsTrim (ev.detail_type.getD [])) = privateLit ∨
       toLowerStr (jsTrim (ev.detail_type.getD [])) = userLit ∨
       toLowerStr (jsTrim (ev.detail_type.getD [])) = dmLit) →
      (ev.user_id.map jsTrim).getD [] ≠ [] →
      resolvedSelfId account ev ≠ some ((ev.user_id.map jsTrim).getD []) →
      ev.rawText ≠ [] →
      (account.dmPolicy = some openLit →
        handleAdmission account store ev =
          .admitted directLit (userPre ++ (ev.user_id.map jsTrim).getD [])) ∧
      (account.dmPolicy = some disabledLit →
        handleAdmission account store ev = .dropped dropReasonDmDisabled) := by
  intro account store ev hdt hs hself htext
  have hdne : toLowerStr (jsTrim (ev.detail_type.getD [])) ≠ [] := by
    rcases hdt with h | h | h <;> rw [h] <;> decide
  have hdchan : toLowerStr (jsTrim (ev.detail_type.getD [])) ≠ channelLit := by
    rcases hdt with h | h | h <;> rw [h] <;> decide
  have hng : isGroupOf (toLowerStr (jsTrim (ev.detail_type.getD []))) = false := by
    rcases hdt with h | h | h <;> rw [h] <;> decide
  have hb := buildTarget_user_eval hs _ hdt (trimOrNone ev.group_id)
    (trimOrNone ev.guild_id) (trimOrNone ev.channel_id)
  have hconv : conversationIdOf (toLowerStr (jsTrim (ev.detail_type.getD [])))
      (trimOrNone ev.guild_id) (trimOrNone ev.channel_id) (trimOrNone ev.group_id)
      ((ev.user_id.map jsTrim).getD []) ≠ [] :=
    conversationIdOf_ne_nil_of_not_channel hdchan hs (fun x hx => (trimOrNone_props hx).1)
  have hchain := handleAdmission_chain account store rfl hdne rfl hs
    hself hb hconv htext
  have hchat : chatTypeOf (toLowerStr (jsTrim (ev.detail_type.getD []))) = directLit := by
    rcases hdt with h | h | h <;> rw [h] <;> decide
  constructor
  · intro hopen
    rw [hchain, gatePolicy_dm hng, gateDm_open hopen, hchat]
  · intro hdis
    rw [hchain, gatePolicy_dm hng, gateDm_disabled hdis]

theorem dm_policy_open_disabled_witness :
    handleAdmission ⟨none, some openLit, [], none, none, none⟩ []
        ⟨some "private".data, some "123".data, none, none, none, none, "hi".data⟩ =
      .admitted directLit "user:123".data ∧
    handleAdmission ⟨none, some disabledLit, ["123".data], none, none, none⟩ ["123".data]
        ⟨some "private".data, some "123".data, none, none, none, none, "hi".data⟩ =
      .dropped dropReasonDmDisabled := by
  constructor
  · exact (dm_policy_open_disabled _ _ _ (by decide) (by decide) (by decide) (by decide)).1 rfl
  · exact (dm_policy_open_disabled _ _ _ (by decide) (by decide) (by decide) (by decide)).2 rfl

lemma gateGroup_notAllowlisted_iff {account : OneBotAccountCfg} {store : List Str}
    {d sid target : Str} {gk : Option Str} :
    gateGroup account store d sid target gk = .dropped dropReasonNotAllowlisted ↔
      (resolveGroupConfig account.groups gk).allowed = false := by
  unfold gateGroup
  by_cases h : (resolveGroupConfig account.groups gk).allowed = false
  · rw [if_pos h]
    simp [h]
  · rw [if_neg h]
    constructor
    · intro hc
      split_ifs at hc <;> exact absurd hc (by decide)
    · intro hc
      exact absurd hc h

lemma resolveGroupConfig_allowed_empty {gk : Option Str}
    {groups : Option (List (Str × OneBotGroupConfig))}
    (h : groups = none ∨ groups = some []) :
    (resolveGroupConfig groups gk).allowed = true := by
  rcases h with h | h <;> subst h <;> simp [resolveGroupConfig]

lemma isEmpty_false_of_ne_nil {l : List (Str × OneBotGroupConfig)} (h : l ≠ []) :
    l.isEmpty = false := by
  cases l with
  | nil => exact absurd rfl h
  | cons a t => rfl

lemma strIsEmpty_false_of_ne_nil {l : Str} (h : l ≠ []) : l.isEmpty = false := by
  cases l with
  | nil => exact absurd rfl h
  | cons a t => rfl

lemma resolveGroupConfig_allowed_iff {gs : List (Str × OneBotGroupConfig)} (hgs : gs ≠ [])
    {gk : Str} (hgk : gk ≠ []) :
    ((resolveGroupConfig (some gs) (some gk)).allowed = false ↔
      ¬(hasKey gs gk = true ∨ hasKey gs wildcardKey = true)) := by
  unfold resolveGroupConfig
  simp only [Option.getD_some]
  rw [isEmpty_false_of_ne_nil hgs, strIsEmpty_false_of_ne_nil hgk]
  cases h1 : hasKey gs gk <;> cases h2 : hasKey gs wildcardKey <;> simp

/-- C3: group admission is implicit with no configured groups and explicit
(group key or wildcard) once any entry exists. -/
theorem group_allowlist_switch :
    (∀ account store ev gid,
      toLowerStr (jsTrim (ev.detail_type.getD [])) = groupLit →
      trimOrNone ev.group_id = some gid →
      (ev.user_id.map jsTrim).getD [] ≠ [] →
      resolvedSelfId account ev ≠ some ((ev.user_id.map jsTrim).getD []) →
      ev.rawText ≠ [] →
      ((account.groups = none ∨ account.groups = some []) →
        handleAdmission account store ev ≠ .dropped dropReasonNotAllowlisted) ∧
      (∀ gs, account.groups = some gs → gs ≠ [] →
        (handleAdmission account store ev = .dropped dropReasonNotAllowlisted ↔
          ¬(hasKey gs gid = true ∨ hasKey gs wildcardKey = true)))) ∧
    (∀ account store ev gg cc,
      toLowerStr (jsTrim (ev.detail_type.getD [])) = channelLit →
      trimOrNone ev.guild_id = some gg →
      trimOrNone ev.channel_id = some cc →
      (ev.user_id.map jsTrim).getD [] ≠ [] →
      resolvedSelfId account ev ≠ some ((ev.user_id.map jsTrim).getD []) →
      ev.rawText ≠ [] →
      ((account.groups = none ∨ account.groups = some []) →
        handleAdmission account store ev ≠ .dropped dropReasonNotAllowlisted) ∧
      (∀ gs, account.groups = some gs → gs ≠ [] →
        (handleAdmission account store ev = .dropped dropReasonNotAllowlisted ↔
          ¬(hasKey gs (channelPre ++ gg ++ [':'] ++ cc) = true ∨
            hasKey gs wildcardKey = true)))) := by
  constructor
  · intro account store ev gid hdt hgid hs hself htext
    obtain ⟨hgidne, -⟩ := trimOrNone_props hgid
    have hb : buildOneBotTargetFromEvent (toLowerStr (jsTrim (ev.detail_type.getD [])))
        (some ((ev.user_id.map jsTrim).getD [])) (trimOrNone ev.group_id)
        (trimOrNone ev.guild_id) (trimOrNone ev.channel_id) = some (groupPre ++ gid) := by
      rw [hdt, hgid]
      exact buildTarget_group_eval hgidne _ _ _
    have hconv : conversationIdOf (toLowerStr (jsTrim (ev.detail_type.getD [])))
        (trimOrNone ev.guild_id) (trimOrNone ev.channel_id) (trimOrNone ev.group_id)
        ((ev.user_id.map jsTrim).getD []) ≠ [] := by
      rw [hdt]
      exact conversationIdOf_ne_nil_of_not_channel (by decide) hs
        (fun x hx => (trimOrNone_props hx).1)
    have hchain := handleAdmission_chain account store rfl
      (by rw [hdt]; decide) rfl hs hself hb hconv htext
    rw [hdt] at hchain
    have hgk : groupKeyOf groupLit (groupPre ++ gid) (trimOrNone ev.group_id) = some gid := by
      unfold groupKeyOf
      rw [if_neg (by decide), if_pos rfl, hgid]
    rw [hgk] at hchain
    constructor
    · intro hempty habs
      rw [hchain, gatePolicy_group (by decide), gateGroup_notAllowlisted_iff,
        resolveGroupConfig_allowed_empty hempty] at habs
      exact absurd habs (by decide)
    · intro gs hgs hgsne
      rw [hchain, gatePolicy_group (by decide), gateGroup_notAllowlisted_iff, hgs]
      exact resolveGroupConfig_allowed_iff hgsne hgidne
  · intro account store ev gg cc hdt hgg hcc hs hself htext
    obtain ⟨hggne, -⟩ := trimOrNone_props hgg
    obtain ⟨hccne, -⟩ := trimOrNone_props hcc
    have hb : buildOneBotTargetFromEvent (toLowerStr (jsTrim (ev.detail_type.getD [])))
        (some ((ev.user_id.map jsTrim).getD [])) (trimOrNone ev.group_id)
        (trimOrNone ev.guild_id) (trimOrNone ev.channel_id) =
          some (channelPre ++ gg ++ [':'] ++ cc) := by
      rw [hdt, hgg, hcc]
      exact buildTarget_channel_eval hggne hccne _ _
    have hconv : conversationIdOf (toLowerStr (jsTrim (ev.detail_type.getD [])))
        (trimOrNone ev.guild_id) (trimOrNone ev.channel_id) (trimOrNone ev.group_id)
        ((ev.user_id.map jsTrim).getD []) ≠ [] := by
      rw [hdt]
      unfold conversationIdOf
      rw [if_pos rfl, hgg, hcc]
      simp
    have hchain := handleAdmission_chain account store rfl
      (by rw [hdt]; decide) rfl hs hself hb hconv htext
    rw [hdt] at hchain
    have hgk : groupKeyOf channelLit (channelPre ++ gg ++ [':'] ++ cc)
        (trimOrNone ev.group_id) = some (channelPre ++ gg ++ [':'] ++ cc) := by
      unfold groupKeyOf
      rw [if_pos rfl]
    rw [hgk] at hchain
    constructor
    · intro hempty habs
      rw [hchain, gatePolicy_group (by decide), gateGroup_notAllowlisted_iff,
        resolveGroupConfig_allowed_empty hempty] at habs
      exact absurd habs (by decide)
    · intro gs hgs hgsne
      rw [hchain, gatePolicy_group (by decide), gateGroup_notAllowlisted_iff, hgs]
      exact resolveGroupConfig_allowed_iff hgsne (by simp [channelPre])

theorem group_allowlist_switch_witness :
    (handleAdmission ⟨none, none, [], none, none, some [("5".data, ⟨none, none⟩)]⟩ []
        ⟨some "group".data, some "9".data, none, some "6".data, none, none, "hi".data⟩ =
      .dropped dropReasonNotAllowlisted ↔
      ¬(hasKey [("5".data, ⟨none, none⟩)] "6".data = true ∨
        hasKey [("5".data, ⟨none, none⟩)] wildcardKey = true)) ∧
    (handleAdmission ⟨none, none, [], none, none, none⟩ []
        ⟨some "group".data, some "9".data, none, some "6".data, none, none, "hi".data⟩ ≠
      .dropped dropReasonNotAllowlisted) := by
  constructor
  · exact (group_allowlist_switch.1 _ _ _ "6".data (by decide) (by decide) (by decide)
      (by decide) (by decide)).2 _ rfl (by decide)
  · exact (group_allowlist_switch.1 _ _ _ "6".data (by decide) (by decide) (by decide)
      (by decide) (by decide)).1 (Or.inl rfl)

lemma mem_insertUniq {l : List Str} {x y : Str} : x ∈ insertUniq l y ↔ x ∈ l ∨ x = y := by
  unfold insertUniq
  split_ifs with h
  · constructor
    · exact Or.inl
    · rintro (hx | rfl)
      · exact hx
      · exact h
  · simp

lemma mem_foldl_insertUniq {l2 : List Str} :
    ∀ {l1 : List Str} {x : Str}, x ∈ l2.foldl insertUniq l1 ↔ x ∈ l1 ∨ x ∈ l2 := by
  induction l2 with
  | nil => simp
  | cons y ys ih =>
    intro l1 x
    rw [List.foldl_cons, ih, mem_insertUniq]
    simp
    tauto

lemma merge_two_hasWildcard (a b : NormalizedAllowlist) :
    (mergeAllowlists [a, b]).hasWildcard = (a.hasWildcard || b.hasWildcard) := by
  simp [mergeAllowlists]

lemma merge_two_mem (a b : NormalizedAllowlist) (x : Str) :
    x ∈ (mergeAllowlists [a, b]).entries ↔ x ∈ a.entries ∨ x ∈ b.entries := by
  show x ∈ b.entries.foldl insertUniq (a.entries.foldl insertUniq []) ↔ _
  rw [mem_foldl_insertUniq, mem_foldl_insertUniq]
  simp

lemma isAllowed_some_eq (list : NormalizedAllowlist) (s : Str) :
    isAllowed list (some s) =
      if list.hasWildcard then true
      else if toLowerStr (jsTrim s) = [] then false
      else decide (toLowerStr (jsTrim s) ∈ list.entries) := rfl

lemma isAllowed_iff {list : NormalizedAllowlist} {s : Str} :
    isAllowed list (some s) = true ↔
      (list.hasWildcard = true ∨
        (jsTrim s ≠ [] ∧ toLowerStr (jsTrim s) ∈ list.entries)) := by
  rw [isAllowed_some_eq]
  by_cases hw : list.hasWildcard = true
  · simp [hw]
  · rw [if_neg hw]
    by_cases hn : toLowerStr (jsTrim s) = []
    · rw [if_pos hn]
      rw [show toLowerStr (jsTrim s) = List.map Char.toLower (jsTrim s) from rfl,
        List.map_eq_nil_iff] at hn
      simp [hw, hn]
    · rw [if_neg hn]
      have hn2 : jsTrim s ≠ [] := by
        intro h0
        exact hn (by rw [h0]; rfl)
      simp [hw, hn2]

/-- C6: the merged group allowlist is (groupAllowFrom if non-empty, else
allowFrom) unioned with the persisted store list; wildcard is sticky. -/
theorem merged_group_allowlist :
    ∀ account store sender,
      (isAllowed (effectiveGroupAllowFrom account store) (some sender) = true ↔
        ((baseGroupAllowFrom account).hasWildcard = true ∨
         (normalizeAllowlist store).hasWildcard = true ∨
         (jsTrim sender ≠ [] ∧
           (toLowerStr (jsTrim sender) ∈ (baseGroupAllowFrom account).entries ∨
            toLowerStr (jsTrim sender) ∈ (normalizeAllowlist store).entries)))) ∧
      (baseGroupAllowFrom account =
        (if account.groupAllowFrom.getD [] ≠ []
          then normalizeAllowlist (account.groupAllowFrom.getD [])
          else normalizeAllowlist account.allowFrom)) ∧
      (((baseGroupAllowFrom account).hasWildcard = true ∨
        (normalizeAllowlist store).hasWildcard = true) →
        ∀ s, isAllowed (effectiveGroupAllowFrom account store) s = true) := by
  intro account store sender
  refine ⟨?_, ?_, ?_⟩
  · unfold effectiveGroupAllowFrom
    rw [isAllowed_iff, merge_two_hasWildcard]
    rw [Bool.or_eq_true]
    constructor
    · rintro (h | ⟨hne, hmem⟩)
      · tauto
      · rw [merge_two_mem] at hmem
        tauto
    · rintro (h | h | ⟨hne, hmem⟩)
      · tauto
      · tauto
      · refine Or.inr ⟨hne, ?_⟩
        rw [merge_two_mem]
        exact hmem
  · unfold baseGroupAllowFrom
    cases h : account.groupAllowFrom with
    | none => simp
    | some l =>
      by_cases hl : l = []
      · subst hl
        simp
      · simp [hl]
  · intro hw s
    unfold effectiveGroupAllowFrom isAllowed
    rw [if_pos]
    rw [merge_two_hasWildcard]
    rcases hw with h | h <;> simp [h]

theorem merged_group_allowlist_witness :
    isAllowed
      (effectiveGroupAllowFrom ⟨none, none, ["*".data], none, none, none⟩ ["9".data])
      (some "anyone".data) = true :=
  (merged_group_allowlist ⟨none, none, ["*".data], none, none, none⟩ ["9".data]
    "anyone".data).2.2 (Or.inl (by decide)) (some "anyone".data)

/-! ## Client state-machine lemmas -/

lemma step_sockOpen (s : ClientState) : step s .sockOpen = handleOpen s := rfl

lemma step_sockClose (s : ClientState) : step s .sockClose = handleClose s := rfl

lemma step_payload (s : ClientState) (p : WirePayload) : step s (.payload p) = handlePayload s p :=
  rfl

lemma step_stopCall (s : ClientState) : step s .stopCall = stopClient s := rfl

lemma step_reconnectFire (s : ClientState) :
    step s .reconnectFire =
      if s.reconnectTimer then connect { s with reconnectTimer := false } else (s, []) := rfl

lemma step_actionTimeout (s : ClientState) (echo : Str) :
    step s (.actionTimeout echo) = fireTimeout s echo := rfl

lemma step_send (s : ClientState) (a : Str) (t : Option Nat) (n : Nat) (ok : Bool) :
    step s (.send a t n ok) = sendAction s a t n ok := rfl

/-- C4: a close on a non-stopped client fails every pending action exactly
once with the connection-closed error (cancelling its timeout), empties the
pending map, and schedules exactly one reconnect timer (none if one is
already outstanding); once stopped, no step ever schedules a reconnect
timer or clears the stop flag. -/
theorem close_rejects_all_and_schedules_once :
    ∀ s : ClientState,
      (s.stopped = false →
        (step s .sockClose).2 =
          .notifyClose ::
            (s.pending.flatMap fun pe =>
              [.clearTimeout pe.1, .rejectAction pe.1 connClosedMsg]) ++
            (if s.reconnectTimer then [] else [.scheduleReconnectTimer]) ∧
        (step s .sockClose).1.pending = [] ∧
        (step s .sockClose).1.reconnectTimer = true) ∧
      (∀ e, s.stopped = true →
        (step s e).1.stopped = true ∧
        ClientEffect.scheduleReconnectTimer ∉ (step s e).2) := by
  intro s
  constructor
  · intro hst
    cases hrt : s.reconnectTimer <;>
      simp [step_sockClose, handleClose, rejectAllPending, scheduleReconnect, hst, hrt]
  · intro e hst
    cases e with
    | sockOpen => simp [step_sockOpen, handleOpen, hst]
    | sockClose =>
      rw [step_sockClose]
      constructor
      · simp [handleClose, rejectAllPending, hst]
      · simp only [handleClose, rejectAllPending, hst, if_pos]
        intro hmem
        rw [List.mem_cons] at hmem
        rcases hmem with h | h
        · exact absurd h (by decide)
        · rw [List.mem_flatMap] at h
          obtain ⟨pe, -, hpe⟩ := h
          simp at hpe
    | payload p =>
      rw [step_payload]
      unfold handlePayload
      split
      · split
        · exact ⟨by simp [hst], by simp⟩
        · exact ⟨hst, by simp⟩
      · split
        · exact ⟨hst, by simp⟩
        · exact ⟨hst, by simp⟩
    | stopCall =>
      rw [step_stopCall]
      unfold stopClient clearReconnectTimerFn closeSocketFn rejectAllPending
      split_ifs <;>
        (constructor
         · simp
         · intro hmem
           simp only [List.mem_append, List.mem_flatMap] at hmem
           rcases hmem with (h | h) | ⟨pe, -, hpe⟩ <;> simp_all)
    | reconnectFire =>
      rw [step_reconnectFire]
      by_cases hrt : s.reconnectTimer = true
      · rw [if_pos hrt]
        unfold connect
        rw [if_pos (by simpa using hst)]
        exact ⟨hst, by simp⟩
      · rw [if_neg hrt]
        exact ⟨hst, by simp⟩
    | actionTimeout echo =>
      rw [step_actionTimeout]
      unfold fireTimeout
      split
      · exact ⟨hst, by simp⟩
      · exact ⟨hst, by simp⟩
    | send action t now ok =>
      rw [step_send]
      unfold sendAction
      split_ifs <;> exact ⟨hst, by simp⟩

theorem close_rejects_all_and_schedules_once_witness :
    (step ⟨false, true, true, false, 0, [("e1".data, ⟨"send_message".data, 10000⟩)]⟩
        .sockClose).2 =
      .notifyClose ::
        ([("e1".data, (⟨"send_message".data, 10000⟩ : PendingEntry))].flatMap fun pe =>
          [.clearTimeout pe.1, .rejectAction pe.1 connClosedMsg]) ++
        (if false then [] else [.scheduleReconnectTimer]) ∧
    (step ⟨true, false, false, false, 0, []⟩ .sockClose).1.stopped = true :=
  ⟨((close_rejects_all_and_schedules_once
      ⟨false, true, true, false, 0, [("e1".data, ⟨"send_message".data, 10000⟩)]⟩).1 rfl).1,
   (((close_rejects_all_and_schedules_once ⟨true, false, false, false, 0, []⟩).2
      .sockClose) rfl).1⟩

/-- C5: a pending action that times out fails with a timeout error naming
the action and is removed from the pending map; the default timeout window
is 10000 ms; a response frame whose echo has no pending entry is a no-op
(neither settles an action nor dispatches an event). -/
theorem action_timeout_semantics :
    ∀ s : ClientState,
      (∀ echo entry, lookupPending s.pending echo = some entry →
        step s (.actionTimeout echo) =
          ({ s with pending := erasePending s.pending echo },
           [.rejectAction echo (timeoutMsgPre ++ entry.action)])) ∧
      (∀ action now, s.wsOpen = true →
        (step s (.send action none now true)).1.pending =
          s.pending ++ [(mkEcho now s.actionCounter, ⟨action, 10000⟩)]) ∧
      (∀ st echo t dt, lookupPending s.pending echo = none →
        step s (.payload ⟨some st, some echo, t, dt⟩) = (s, [])) := by
  intro s
  refine ⟨?_, ?_, ?_⟩
  · intro echo entry h
    rw [step_actionTimeout]
    unfold fireTimeout
    rw [h]
  · intro action now hw
    rw [step_send]
    unfold sendAction
    rw [if_neg (by simp [hw]), if_pos rfl]
    rfl
  · intro st echo t dt h
    rw [step_payload]
    have hred : handlePayload s ⟨some st, some echo, t, dt⟩ =
        (match lookupPending s.pending echo with
         | some _ =>
           ({ s with pending := erasePending s.pending echo },
            [.clearTimeout echo, .resolveAction echo])
         | none => (s, [])) := rfl
    rw [hred, h]

theorem action_timeout_semantics_witness :
    step ⟨false, true, true, false, 0, [("e1".data, ⟨"send_message".data, 10000⟩)]⟩
        (.actionTimeout "e1".data) =
      ({ (⟨false, true, true, false, 0,
            [("e1".data, ⟨"send_message".data, 10000⟩)]⟩ : ClientState) with
          pending := erasePending [("e1".data, ⟨"send_message".data, 10000⟩)] "e1".data },
       [.rejectAction "e1".data (timeoutMsgPre ++ "send_message".data)]) ∧
    step ⟨false, true, true, false, 0, []⟩
        (.payload ⟨some "ok".data, some "e9".data, none, none⟩) =
      (⟨false, true, true, false, 0, []⟩, []) :=
  ⟨(action_timeout_semantics _).1 "e1".data ⟨"send_message".data, 10000⟩ (by decide),
   (action_timeout_semantics _).2.2 "ok".data "e9".data none none (by decide)⟩

/-- C10: with a valid target and a registered client, empty or
whitespace-only text returns `{channel: "onebot", to: target}` without
issuing any `send_message` action; the invalid-target and missing-client
checks still throw first. -/
theorem empty_text_send_short_circuit :
    ∀ hasClient resp target text,
      (∀ p, parseOneBotTarget target = some p → hasClient = true → jsTrim text = [] →
        sendOneBotMessage hasClient resp target text =
          ⟨none, none, some (onebotChannelLit, target)⟩) ∧
      (parseOneBotTarget target = none →
        sendOneBotMessage hasClient resp target text = ⟨some invalidTargetMsg, none, none⟩) ∧
      (∀ p, parseOneBotTarget target = some p → hasClient = false →
        sendOneBotMessage hasClient resp target text = ⟨some clientMissingMsg, none, none⟩) := by
  intro hasClient resp target text
  refine ⟨?_, ?_, ?_⟩
  · intro p hp hc htext
    unfold sendOneBotMessage
    rw [hp]
    show (if hasClient = false then _ else _) = _
    rw [if_neg (by simp [hc]), if_pos htext]
  · intro hp
    unfold sendOneBotMessage
    rw [hp]
  · intro p hp hc
    unfold sendOneBotMessage
    rw [hp]
    show (if hasClient = false then _ else _) = _
    rw [if_pos hc]

theorem empty_text_send_short_circuit_witness :
    sendOneBotMessage true ⟨some "ok".data, some 0, none⟩ "user:1".data "  ".data =
      ⟨none, none, some (onebotChannelLit, "user:1".data)⟩ ∧
    sendOneBotMessage true ⟨some "ok".data, some 0, none⟩ "bogus".data "  ".data =
      ⟨some invalidTargetMsg, none, none⟩ ∧
    sendOneBotMessage false ⟨some "ok".data, some 0, none⟩ "user:1".data "  ".data =
      ⟨some clientMissingMsg, none, none⟩ :=
  ⟨(empty_text_send_short_circuit true _ "user:1".data "  ".data).1 (.user "1".data)
      (by decide) rfl (by decide),
   (empty_text_send_short_circuit true _ "bogus".data "  ".data).2.1 (by decide),
   (empty_text_send_short_circuit false _ "user:1".data "  ".data).2.2 (.user "1".data)
      (by decide) rfl⟩

/-! ## URL model lemmas -/

lemma splitOnFirst_cons (c x : Char) (xs : Str) :
    splitOnFirst c (x :: xs) =
      if x = c then ([], some xs)
      else (x :: (splitOnFirst c xs).1, (splitOnFirst c xs).2) := rfl

lemma splitOnFirst_cons_eq (c : Char) (xs : Str) :
    splitOnFirst c (c :: xs) = ([], some xs) := by
  rw [splitOnFirst_cons, if_pos rfl]

lemma splitOnFirst_cons_ne {c x : Char} (xs : Str) (h : x ≠ c) :
    splitOnFirst c (x :: xs) = (x :: (splitOnFirst c xs).1, (splitOnFirst c xs).2) := by
  rw [splitOnFirst_cons, if_neg h]

lemma splitOnFirst_not_mem {c : Char} {s : Str} (h : c ∉ s) :
    splitOnFirst c s = (s, none) := by
  induction s with
  | nil => rfl
  | cons x xs ih =>
    have hx : x ≠ c := fun he => h (he ▸ List.mem_cons_self x xs)
    rw [splitOnFirst_cons_ne xs hx, ih (fun hm => h (List.mem_cons_of_mem x hm))]

lemma splitOnFirst_fst_not_mem (c : Char) (s : Str) : c ∉ (splitOnFirst c s).1 := by
  induction s with
  | nil => simp [splitOnFirst]
  | cons x xs ih =>
    by_cases hx : x = c
    · subst hx
      rw [splitOnFirst_cons_eq]
      simp
    · rw [splitOnFirst_cons_ne xs hx]
      intro hm
      rcases List.mem_cons.mp hm with h | h
      · exact hx h.symm
      · exact ih h

lemma splitOnFirst_reconstruct {c : Char} {s a b : Str}
    (h : splitOnFirst c s = (a, some b)) : s = a ++ c :: b := by
  induction s generalizing a with
  | nil => exact absurd h (by simp [splitOnFirst])
  | cons x xs ih =>
    by_cases hx : x = c
    · subst hx
      rw [splitOnFirst_cons_eq] at h
      injection h with h1 h2
      injection h2 with h2
      subst h1
      subst h2
      rfl
    · rw [splitOnFirst_cons_ne xs hx] at h
      injection h with h1 h2
      cases a with
      | nil => exact absurd h1 (by simp)
      | cons a0 arest =>
        injection h1 with h1a h1b
        subst h1a
        rw [List.cons_append]
        congr 1
        exact ih (by rw [← h1b, ← h2])

lemma splitOnFirst_append {c : Char} {a : Str} (t : Str) (h : c ∉ a) :
    splitOnFirst c (a ++ t) = (a ++ (splitOnFirst c t).1, (splitOnFirst c t).2) := by
  induction a with
  | nil => simp
  | cons x xs ih =>
    have hx : x ≠ c := fun he => h (he ▸ List.mem_cons_self x xs)
    rw [List.cons_append, splitOnFirst_cons_ne _ hx, ih (fun hm => h (List.mem_cons_of_mem x hm))]
    simp

lemma splitOnFirst_none_not_mem {c : Char} {s : Str}
    (h : (splitOnFirst c s).2 = none) : c ∉ s := by
  induction s with
  | nil => simp
  | cons x xs ih =>
    by_cases hx : x = c
    · subst hx
      rw [splitOnFirst_cons_eq] at h
      exact absurd h (by simp)
    · rw [splitOnFirst_cons_ne xs hx] at h
      intro hm
      rcases List.mem_cons.mp hm with hm | hm
      · exact hx hm.symm
      · exact ih h hm

lemma splitOnFirst_of_two {c d : Char} (hcd : c ≠ d) :
    ∀ {s a b base q : Str}, splitOnFirst c s = (a, some b) → d ∉ a →
      splitOnFirst d s = (base, some q) →
      splitOnFirst c base = (a, some ((splitOnFirst d b).1)) := by
  intro s
  induction s with
  | nil =>
    intro a b base q hc
    exact absurd hc (by simp [splitOnFirst])
  | cons x xs ih =>
    intro a b base q hc hd hdsplit
    by_cases hx : x = c
    · subst hx
      rw [splitOnFirst_cons_eq] at hc
      injection hc with h1 h2
      injection h2 with h2
      subst h1
      subst h2
      rw [splitOnFirst_cons_ne xs hcd] at hdsplit
      injection hdsplit with g1 g2
      subst g1
      rw [splitOnFirst_cons_eq]
    · by_cases hxd : x = d
      · subst hxd
        rw [splitOnFirst_cons_ne xs hx] at hc
        injection hc with h1 h2
        exfalso
        apply hd
        rw [← h1]
        exact List.mem_cons_self _ _
      · rw [splitOnFirst_cons_ne xs hx] at hc
        rw [splitOnFirst_cons_ne xs hxd] at hdsplit
        injection hc with h1 h2
        injection hdsplit with g1 g2
        subst h1
        subst g1
        have hd' : d ∉ (splitOnFirst c xs).1 := fun hm => hd (List.mem_cons_of_mem x hm)
        have ihh := @ih (splitOnFirst c xs).1 b (splitOnFirst d xs).1 q
          (by rw [← h2]) hd' (by rw [← g2])
        rw [splitOnFirst_cons_ne _ hx, ihh]

lemma parseUrl_eval_query {s sch rest base q : Str}
    (h1 : splitOnFirst ':' s = (sch, some rest))
    (h2 : sch ≠ []) (h3 : sch.all Char.isAlpha = true)
    (h4 : splitOnFirst '?' s = (base, some q)) :
    parseUrl s = some ⟨base, parseQuery q⟩ := by
  unfold parseUrl
  rw [h1, h4]
  show (if sch ≠ [] ∧ sch.all Char.isAlpha then
      some (⟨base, parseQuery q⟩ : UrlModel) else none) =
    some (⟨base, parseQuery q⟩ : UrlModel)
  rw [if_pos ⟨h2, h3⟩]

lemma parseUrl_eval_noquery {s sch rest : Str}
    (h1 : splitOnFirst ':' s = (sch, some rest))
    (h2 : sch ≠ []) (h3 : sch.all Char.isAlpha = true)
    (h4 : (splitOnFirst '?' s).2 = none) :
    parseUrl s = some ⟨s, []⟩ := by
  unfold parseUrl
  rw [h1]
  show (if sch ≠ [] ∧ sch.all Char.isAlpha then
      (match (splitOnFirst '?' s).2 with
       | some q => some (⟨(splitOnFirst '?' s).1, parseQuery q⟩ : UrlModel)
       | none => some (⟨s, []⟩ : UrlModel))
    else none) = some (⟨s, []⟩ : UrlModel)
  rw [if_pos ⟨h2, h3⟩, h4]

lemma parseUrl_of_baseWF_query {base : Str} (hb : BaseWF base) (Q : Str) :
    parseUrl (base ++ '?' :: Q) = some ⟨base, parseQuery Q⟩ := by
  obtain ⟨hsome, hne, halpha, hq⟩ := hb
  obtain ⟨rest, hrest⟩ := Option.isSome_iff_exists.mp hsome
  have hsch : splitOnFirst ':' base = ((splitOnFirst ':' base).1, some rest) := by
    rw [← hrest]
  have hrecon := splitOnFirst_reconstruct hsch
  have hsplit1 : splitOnFirst ':' (base ++ '?' :: Q) =
      ((splitOnFirst ':' base).1, some (rest ++ '?' :: Q)) := by
    conv_lhs => rw [hrecon]
    rw [List.append_assoc, List.cons_append]
    rw [splitOnFirst_append _ (splitOnFirst_fst_not_mem ':' base), splitOnFirst_cons_eq]
    simp
  have hsplit2 : splitOnFirst '?' (base ++ '?' :: Q) = (base, some Q) := by
    rw [splitOnFirst_append _ hq, splitOnFirst_cons_eq]
    simp
  exact parseUrl_eval_query hsplit1 hne halpha hsplit2

lemma parseUrl_of_baseWF_nil {base : Str} (hb : BaseWF base) :
    parseUrl base = some ⟨base, []⟩ := by
  obtain ⟨hsome, hne, halpha, hq⟩ := hb
  obtain ⟨rest, hrest⟩ := Option.isSome_iff_exists.mp hsome
  have hsch : splitOnFirst ':' base = ((splitOnFirst ':' base).1, some rest) := by
    rw [← hrest]
  exact parseUrl_eval_noquery hsch hne halpha (by rw [splitOnFirst_not_mem hq])

lemma splitOnFirst_fst_sublist (c : Char) (s : Str) : List.Sublist (splitOnFirst c s).1 s := by
  induction s with
  | nil => simp [splitOnFirst]
  | cons x xs ih =>
    by_cases hx : x = c
    · subst hx
      rw [splitOnFirst_cons_eq]
      simp
    · rw [splitOnFirst_cons_ne xs hx]
      exact List.Sublist.cons₂ x ih

lemma mem_splitPiece {q piece : Str}
    (hpiece : piece ∈ splitOnPred (fun c => c = '&') q) {c : Char} (hc : c ∈ piece) :
    c ≠ '&' := by
  have := splitOnPred_pieces (p := fun c => c = '&') q piece hpiece c hc
  simpa using this

lemma parseQuery_WF (q : Str) : QueryWF (parseQuery q) := by
  intro kv hkv
  unfold parseQuery at hkv
  rw [List.mem_map] at hkv
  obtain ⟨piece, hpf, heq⟩ := hkv
  rw [List.mem_filter] at hpf
  obtain ⟨hpiece, -⟩ := hpf
  subst heq
  refine ⟨?_, ?_, ?_⟩
  · intro hm
    exact mem_splitPiece hpiece
      (List.Sublist.mem hm (splitOnFirst_fst_sublist '=' piece)) rfl
  · exact fun hm => splitOnFirst_fst_not_mem '=' piece hm
  · intro hm
    unfold parseQueryPiece at hm
    cases h2 : (splitOnFirst '=' piece).2 with
    | none => rw [h2] at hm; simp at hm
    | some v =>
      rw [h2] at hm
      simp only [Option.getD_some] at hm
      have hrec : piece = (splitOnFirst '=' piece).1 ++ '=' :: v :=
        splitOnFirst_reconstruct (by rw [← h2])
      have hcv : '&' ∈ piece := by
        rw [hrec]
        exact List.mem_append_right _ (List.mem_cons_of_mem _ hm)
      exact mem_splitPiece hpiece hcv rfl

lemma parseUrl_props {s : Str} {u : UrlModel} (h : parseUrl s = some u) :
    BaseWF u.base ∧ QueryWF u.params := by
  unfold parseUrl at h
  split at h
  · exact absurd h (by simp)
  · rename_i rest heq
    split_ifs at h with hcond
    · split at h
      · rename_i q heq2
        injection h with h
        subst h
        constructor
        · have hd : '?' ∉ (splitOnFirst ':' s).1 := by
            intro hm
            have := List.all_eq_true.mp hcond.2 _ hm
            exact absurd this (by decide)
          have h2 := splitOnFirst_of_two (by decide : ':' ≠ '?')
            (by rw [← heq] : splitOnFirst ':' s = ((splitOnFirst ':' s).1, some rest)) hd
            (by rw [← heq2] : splitOnFirst '?' s = ((splitOnFirst '?' s).1, some q))
          refine ⟨?_, ?_, ?_, ?_⟩
          · show (splitOnFirst ':' (splitOnFirst '?' s).1).2.isSome = true
            rw [h2]
            rfl
          · show (splitOnFirst ':' (splitOnFirst '?' s).1).1 ≠ []
            rw [h2]
            exact hcond.1
          · show (splitOnFirst ':' (splitOnFirst '?' s).1).1.all Char.isAlpha = true
            rw [h2]
            exact hcond.2
          · exact splitOnFirst_fst_not_mem '?' s
        · exact parseQuery_WF q
      · rename_i heq2
        injection h with h
        subst h
        refine ⟨⟨?_, hcond.1, hcond.2, splitOnFirst_none_not_mem heq2⟩, ?_⟩
        · show (splitOnFirst ':' s).2.isSome = true
          rw [heq]
          rfl
        · intro kv hkv
          simp at hkv

lemma parseQueryPiece_eval {k v : Str} (hk : '=' ∉ k) :
    parseQueryPiece (k ++ '=' :: v) = (k, v) := by
  unfold parseQueryPiece
  rw [splitOnFirst_append _ hk, splitOnFirst_cons_eq]
  simp

lemma parseQuery_renderQuery : ∀ {ps : List (Str × Str)}, QueryWF ps →
    parseQuery (renderQuery ps) = ps := by
  intro ps
  induction ps with
  | nil => intro _; rfl
  | cons p ps ih =>
    intro h
    obtain ⟨hk1, hk2, hv⟩ := h p (List.mem_cons_self _ _)
    have hfree : ∀ c ∈ p.1 ++ '=' :: p.2, (fun c => decide (c = '&')) c = false := by
      intro c hc
      rcases List.mem_append.mp hc with hc | hc
      · exact decide_eq_false (fun he => hk1 (he ▸ hc))
      · rcases List.mem_cons.mp hc with hc | hc
        · subst hc
          decide
        · exact decide_eq_false (fun he => hv (he ▸ hc))
    have hne : p.1 ++ '=' :: p.2 ≠ [] := by simp
    cases ps with
    | nil =>
      show parseQuery (p.1 ++ ['='] ++ p.2) = [p]
      rw [show p.1 ++ ['='] ++ p.2 = p.1 ++ '=' :: p.2 from by simp]
      unfold parseQuery
      rw [splitOnPred_single hfree]
      rw [List.filter_cons_of_pos (by simp)]
      rw [show List.filter (fun x => decide (x ≠ [])) [] = [] from rfl]
      rw [List.map_cons, List.map_nil, parseQueryPiece_eval hk2]
    | cons p2 rest =>
      have hwf2 : QueryWF (p2 :: rest) := fun kv hkv => h kv (List.mem_cons_of_mem p hkv)
      show parseQuery (p.1 ++ ['='] ++ p.2 ++ ['&'] ++ renderQuery (p2 :: rest)) =
        p :: p2 :: rest
      rw [show p.1 ++ ['='] ++ p.2 ++ ['&'] ++ renderQuery (p2 :: rest) =
          (p.1 ++ '=' :: p.2) ++ '&' :: renderQuery (p2 :: rest) from by simp]
      unfold parseQuery
      rw [splitOnPred_append_not _ hfree]
      rw [splitOnPred_cons_pos _ (by decide)]
      rw [List.headI_cons, List.tail_cons, List.append_nil]
      rw [List.filter_cons_of_pos (by simp)]
      rw [List.map_cons, parseQueryPiece_eval hk2]
      congr 1
      exact ih hwf2

lemma mem_removeParamKey {ps : List (Str × Str)} {k : Str} {kv : Str × Str}
    (h : kv ∈ removeParamKey ps k) : kv ∈ ps ∧ kv.1 ≠ k := by
  induction ps with
  | nil => exact absurd h (by simp [removeParamKey])
  | cons p rest ih =>
    unfold removeParamKey at h
    split at h
    · rename_i hp
      obtain ⟨hm, hne⟩ := ih h
      exact ⟨List.mem_cons_of_mem _ hm, hne⟩
    · rename_i hp
      rcases List.mem_cons.mp h with hm | hm
      · subst hm
        exact ⟨List.mem_cons_self _ _, hp⟩
      · obtain ⟨hm2, hne⟩ := ih hm
        exact ⟨List.mem_cons_of_mem _ hm2, hne⟩

lemma mem_setParamKey {ps : List (Str × Str)} {k v : Str} {kv : Str × Str}
    (h : kv ∈ setParamKey ps k v) : kv = (k, v) ∨ kv ∈ ps := by
  induction ps with
  | nil =>
    unfold setParamKey at h
    rcases List.mem_cons.mp h with hm | hm
    · exact Or.inl hm
    · simp at hm
  | cons p rest ih =>
    unfold setParamKey at h
    split at h
    · rcases List.mem_cons.mp h with hm | hm
      · exact Or.inl hm
      · exact Or.inr (List.mem_cons_of_mem _ (mem_removeParamKey hm).1)
    · rcases List.mem_cons.mp h with hm | hm
      · exact Or.inr (by rw [hm]; exact List.mem_cons_self _ _)
      · rcases ih hm with hm2 | hm2
        · exact Or.inl hm2
        · exact Or.inr (List.mem_cons_of_mem _ hm2)

lemma setParamKey_key_val {ps : List (Str × Str)} {k v : Str} :
    ∀ kv ∈ setParamKey ps k v, kv.1 = k → kv.2 = v := by
  induction ps with
  | nil =>
    intro kv hkv _
    unfold setParamKey at hkv
    rcases List.mem_cons.mp hkv with hm | hm
    · rw [hm]
    · simp at hm
  | cons p rest ih =>
    intro kv hkv hkey
    unfold setParamKey at hkv
    split at hkv
    · rcases List.mem_cons.mp hkv with hm | hm
      · rw [hm]
      · exact absurd hkey (mem_removeParamKey hm).2
    · rename_i hp
      rcases List.mem_cons.mp hkv with hm | hm
      · exact absurd (by rw [hm] at hkey; exact hkey : p.1 = k) hp
      · exact ih kv hm hkey

lemma setParamKey_ne_nil (ps : List (Str × Str)) (k v : Str) : setParamKey ps k v ≠ [] := by
  cases ps with
  | nil => simp [setParamKey]
  | cons p rest =>
    unfold setParamKey
    split <;> simp

lemma QueryWF_setParam {ps : List (Str × Str)} (h : QueryWF ps) {k v : Str}
    (hk1 : '&' ∉ k) (hk2 : '=' ∉ k) (hv : '&' ∉ v) : QueryWF (setParamKey ps k v) := by
  intro kv hkv
  rcases mem_setParamKey hkv with hm | hm
  · subst hm
    exact ⟨hk1, hk2, hv⟩
  · exact h kv hm

lemma hasParamKey_false {ps : List (Str × Str)} {k : Str}
    (h : hasParamKey ps k = false) : ∀ kv ∈ ps, kv.1 ≠ k := by
  intro kv hkv
  unfold hasParamKey at h
  rw [List.any_eq_false] at h
  have := h kv hkv
  simpa using this

lemma renderUrl_cons (base : Str) (p0 : Str × Str) (ps : List (Str × Str)) :
    renderUrl ⟨base, p0 :: ps⟩ = base ++ '?' :: renderQuery (p0 :: ps) := by
  unfold renderUrl
  rw [if_neg (by simp)]

lemma parseUrl_renderUrl {base : Str} (hb : BaseWF base) {ps : List (Str × Str)}
    (hps : QueryWF ps) : parseUrl (renderUrl ⟨base, ps⟩) = some ⟨base, ps⟩ := by
  cases ps with
  | nil =>
    show parseUrl (base ++ (if ([] : List (Str × Str)) = [] then [] else _)) = _
    rw [if_pos rfl, List.append_nil]
    exact parseUrl_of_baseWF_nil hb
  | cons p0 rest =>
    rw [renderUrl_cons, parseUrl_of_baseWF_query hb]
    rw [parseQuery_renderQuery hps]

lemma withAccessToken_some (url tok : Str) :
    withAccessToken url (some tok) =
      if tok = [] then url
      else
        match parseUrl url with
        | some u =>
          if hasParamKey u.params accessTokenKey then renderUrl u
          else renderUrl ⟨u.base, setParamKey u.params accessTokenKey tok⟩
        | none => url := rfl

lemma withAccessToken_parsed {url tok : Str} {u0 : UrlModel} (htok : tok ≠ [])
    (h0 : parseUrl url = some u0) :
    withAccessToken url (some tok) =
      if hasParamKey u0.params accessTokenKey then renderUrl u0
      else renderUrl ⟨u0.base, setParamKey u0.params accessTokenKey tok⟩ := by
  rw [withAccessToken_some, if_neg htok, h0]

lemma withAccessToken_unparsed {url tok : Str} (htok : tok ≠ [])
    (h0 : parseUrl url = none) : withAccessToken url (some tok) = url := by
  rw [withAccessToken_some, if_neg htok, h0]

lemma sanitizeUrl_parsed {s : Str} {u : UrlModel} (h : parseUrl s = some u) :
    sanitizeUrl s =
      if hasParamKey u.params accessTokenKey then
        renderUrl ⟨u.base, setParamKey u.params accessTokenKey redactedValue⟩
      else renderUrl u := by
  unfold sanitizeUrl
  rw [h]

lemma sanitizeUrl_unparsed {s : Str} (h : parseUrl s = none) : sanitizeUrl s = redactRaw s := by
  unfold sanitizeUrl
  rw [h]

/-- C9 (amended): the `access_token` parameter of the logged URL is always
the redaction marker (parseable case), and unparseable URLs are logged
after global regex redaction; the original URL may still leak the token
through other components. -/
theorem access_token_redaction :
    ∀ url token, token ≠ [] →
      (∀ u0, parseUrl url = some u0 →
        ∃ ps, parseUrl (loggedConnectUrl url (some token)) = some ⟨u0.base, ps⟩ ∧
          ∀ kv ∈ ps, kv.1 = accessTokenKey → kv.2 = redactedValue) ∧
      (parseUrl url = none → loggedConnectUrl url (some token) = redactRaw url) := by
  intro url token htok
  constructor
  · intro u0 h0
    obtain ⟨base, params⟩ := u0
    obtain ⟨hbase, hq⟩ := parseUrl_props h0
    show ∃ ps, parseUrl (loggedConnectUrl url (some token)) = some ⟨base, ps⟩ ∧
      ∀ kv ∈ ps, kv.1 = accessTokenKey → kv.2 = redactedValue
    unfold loggedConnectUrl
    rw [withAccessToken_parsed htok h0]
    by_cases hhas : hasParamKey params accessTokenKey = true
    · rw [if_pos hhas]
      have hparse1 : parseUrl (renderUrl ⟨base, params⟩) = some ⟨base, params⟩ :=
        parseUrl_renderUrl hbase hq
      rw [sanitizeUrl_parsed hparse1, if_pos hhas]
      have hwf2 : QueryWF (setParamKey params accessTokenKey redactedValue) :=
        QueryWF_setParam hq (by decide) (by decide) (by decide)
      refine ⟨setParamKey params accessTokenKey redactedValue,
        parseUrl_renderUrl hbase hwf2, ?_⟩
      exact setParamKey_key_val
    · rw [if_neg hhas]
      cases hP1 : setParamKey params accessTokenKey token with
      | nil => exact absurd hP1 (setParamKey_ne_nil _ _ _)
      | cons q0 qrest =>
        rw [renderUrl_cons]
        have hparse1 := parseUrl_of_baseWF_query hbase (renderQuery (q0 :: qrest))
        rw [sanitizeUrl_parsed hparse1]
        have hQ1wf : QueryWF (parseQuery (renderQuery (q0 :: qrest))) := parseQuery_WF _
        by_cases hhas2 :
            hasParamKey (parseQuery (renderQuery (q0 :: qrest))) accessTokenKey = true
        · rw [if_pos hhas2]
          have hwf2 : QueryWF (setParamKey (parseQuery (renderQuery (q0 :: qrest)))
              accessTokenKey redactedValue) :=
            QueryWF_setParam hQ1wf (by decide) (by decide) (by decide)
          refine ⟨_, parseUrl_renderUrl hbase hwf2, ?_⟩
          exact setParamKey_key_val
        · rw [if_neg hhas2]
          refine ⟨_, parseUrl_renderUrl hbase hQ1wf, ?_⟩
          intro kv hkv hkey
          exact absurd hkey
            (hasParamKey_false (Bool.eq_false_iff.mpr hhas2) kv hkv)
  · intro hnone
    unfold loggedConnectUrl
    rw [withAccessToken_unparsed htok hnone, sanitizeUrl_unparsed hnone]

theorem access_token_redaction_counterexample :
    containsSub "SECRET".data
      (loggedConnectUrl "ws://h?leak=SECRET".data (some "SECRET".data)) = true := by
  decide

theorem access_token_redaction_witness :
    ("SECRET".data : Str) ≠ [] ∧
    loggedConnectUrl "notaurl".data (some "SECRET".data) = redactRaw "notaurl".data :=
  ⟨by decide,
   (access_token_redaction "notaurl".data "SECRET".data (by decide)).2 (by decide)⟩
